import Mathlib

/-!
# PlayTorrio: transcoder supervisor and ffmpeg provisioner

A shallow embedding of

* `main_transcoder_snippet.js` : `startTranscoder` and the `exit` handler it
  registers on the child (namespace `Transcoder`);
* `build/setup-ffmpeg.js` : `setup`, its flatten pass, and `verify`
  (namespace `FfmpegSetup`).

The JavaScript event loop is single threaded, so every handler runs to
completion; a handler is a function on the supervisor state and the event loop
is a step relation that picks the next handler to run.
-/

namespace Transcoder

/-! ## Supervisor: data model -/

/-- Console channel a line is written to (`console.log`, `console.warn`,
`console.error`). -/
inductive Level where
  | log
  | warn
  | error
deriving DecidableEq, Repr

/-- One line written to the console. -/
structure LogLine where
  level : Level
  text : String
deriving DecidableEq, Repr

/-- An environment object: variable names with their values, in insertion
order, names pairwise distinct. -/
abbrev Environ := List (String × String)

/-- Property assignment `e[k] = v` on an object: an existing key keeps its
place and gets the new value, a new key is added at the end. -/
def setVar : Environ → String → String → Environ
  | [], k, v => [(k, v)]
  | (k', v') :: rest, k, v =>
    if k' = k then (k', v) :: rest else (k', v') :: setVar rest k v

/-- Property read `e[k]`. -/
def getVar : Environ → String → Option String
  | [], _ => none
  | (k', v') :: rest, k => if k' = k then some v' else getVar rest k

/-- A JavaScript value that is a string or `null`, as held by `ffmpegBin`. -/
abbrev JsStr := Option String

/-- Truthiness of a string-or-null value: `null` and `''` are falsy. -/
def truthy : JsStr → Bool
  | none => false
  | some s => s != ""

/-- The arguments of one `spawn` call: what the child was started with. -/
structure Child where
  command : String
  args : List String
  stdio : List String
  env : Environ
  cwd : String
deriving DecidableEq, Repr

/-- The function a timer calls when it fires. The snippet only ever passes
`startTranscoder` to `setTimeout`. -/
inductive Callback where
  | startTranscoder
deriving DecidableEq, Repr

/-- A pending `setTimeout(callback, delay)`. -/
structure Timer where
  callback : Callback
  delay : Nat
deriving DecidableEq, Repr

/-- Values fixed for the life of the host process. -/
structure Host where
  dirname : String
  execPath : String
deriving DecidableEq, Repr

/-- What the outside world answers during one run of `startTranscoder`. -/
structure World where
  /-- Result of `fs.existsSync(scriptPath)`. -/
  scriptExists : Bool
  /-- Result of `require('ffmpeg-static')`: the exported value, or the message
  of the error it throws. -/
  ffmpegStatic : Except String JsStr
  /-- Value of `process.env`. -/
  processEnv : Environ
  /-- Outcome of the `spawn` call: `none` when it returns a child, `some msg`
  when it throws an error with message `msg`. -/
  spawnFault : Option String

/-- State of the supervisor. `transcoderProc`, the timers and `isQuitting` are
the program's variables; `spawned`, `live` and `console` record what the
program did: every child it created (a child's identity is its position in
`spawned`), which of them have not exited yet, and what it printed. -/
structure SupState where
  transcoderProc : Option Nat
  timers : List Timer
  isQuitting : Bool
  spawned : List Child
  live : List Nat
  console : List LogLine
deriving DecidableEq, Repr

/-- How a call ended: it returned to its caller, or an exception left it. -/
inductive Completion where
  | returned
  | threw (message : String)
deriving DecidableEq, Repr

/-- The state at program start: `let transcoderProc = null`, nothing
scheduled, nothing spawned. -/
def SupState.init : SupState :=
  { transcoderProc := none, timers := [], isQuitting := false,
    spawned := [], live := [], console := [] }

/-- Write one line to the console. -/
def SupState.print (s : SupState) (lvl : Level) (text : String) : SupState :=
  { s with console := s.console ++ [⟨lvl, text⟩] }

/-- The constant `transcoderPort`. -/
def transcoderPort : Nat := 3005

/-- The delay passed to `setTimeout` by the exit handler. -/
def restartDelay : Nat := 5000

/-- Joining path segments with `path.join`, for segments that need no
normalisation. -/
def pathJoin (parts : List String) : String := String.intercalate "/" parts

/-- The value of `scriptPath`. -/
def scriptPath (h : Host) : String := pathJoin [h.dirname, "transcoder", "server.js"]

/-- Lines 16 to 24: the value of `ffmpegBin` after the `try`/`catch` around
`require('ffmpeg-static')`, and the state after the warning the `catch`
prints. -/
def resolveFfmpeg (w : World) (s : SupState) : JsStr × SupState :=
  match w.ffmpegStatic with
  | .ok v => (v, s)
  | .error msg =>
    (some "", s.print .warn ("[Transcoder] ffmpeg-static require failed: " ++ msg))

/-- Lines 31 to 35: `process.env` overlaid with `PORT` and
`ELECTRON_RUN_AS_NODE`. -/
def baseEnv (w : World) : Environ :=
  setVar (setVar w.processEnv "PORT" (toString transcoderPort)) "ELECTRON_RUN_AS_NODE" "1"

/-- Lines 37 to 40: when `ffmpegBin` is truthy it becomes `env.FFMPEG_PATH`
and the choice is printed. -/
def overrideFfmpeg (ffmpegBin : JsStr) (env : Environ) (s : SupState) : Environ × SupState :=
  if truthy ffmpegBin then
    (setVar env "FFMPEG_PATH" (ffmpegBin.getD ""),
     s.print .log ("[Transcoder] Using custom ffmpeg: " ++ ffmpegBin.getD ""))
  else (env, s)

/-- Lines 42 to 46 when `spawn` returns: the child started with `env`. -/
def childOf (h : Host) (env : Environ) : Child :=
  { command := h.execPath, args := [scriptPath h],
    stdio := ["ignore", "pipe", "pipe"], env := env,
    cwd := pathJoin [h.dirname, "transcoder"] }

/-- Lines 42 to 46: the `spawn` call and the assignment of its result to
`transcoderProc`. When `spawn` throws, the assignment does not happen. -/
def spawnChild (h : Host) (w : World) (env : Environ) (s : SupState) : Completion × SupState :=
  match w.spawnFault with
  | some msg => (.threw msg, s)
  | none =>
    (.returned,
     { s with transcoderProc := some s.spawned.length,
              spawned := s.spawned ++ [childOf h env],
              live := s.live ++ [s.spawned.length] })

/-- Lines 16 to 40: the environment for the child, and the state after what
these lines print. -/
def prepareEnv (w : World) (s : SupState) : Environ × SupState :=
  let r := resolveFfmpeg w s
  overrideFfmpeg r.1 (baseEnv w) r.2

/-- The function `startTranscoder`, lines 5 to 62. The handlers registered on
the child at lines 48 to 61 run later, as events; the exit handler is
`onExit`. -/
def startTranscoder (h : Host) (w : World) (s : SupState) : Completion × SupState :=
  if s.transcoderProc.isSome then (.returned, s)
  else
    let s1 := s.print .log "[Transcoder] Starting..."
    if !w.scriptExists then
      (.returned, s1.print .warn ("[Transcoder] Server script not found at: " ++ scriptPath h))
    else
      let o := prepareEnv w s1
      spawnChild h w o.1 o.2

/-- Text of an exit code: a number, or `null` when a signal ended the child. -/
def showCode : Option Int → String
  | some n => toString n
  | none => "null"

/-- The handler registered with `transcoderProc.on('exit', ...)`, lines 55 to
61, run when child `c` exits with `code`. The child leaves `live`; the rest is
what the handler does. -/
def onExit (c : Nat) (code : Option Int) (s : SupState) : SupState :=
  let s := { s with live := s.live.erase c }
  let s := s.print .log ("[Transcoder] Exited with code " ++ showCode code)
  let s := { s with transcoderProc := none }
  if !s.isQuitting then
    { s with timers := s.timers ++ [⟨.startTranscoder, restartDelay⟩] }
  else s

/-- Run the callback of a timer. -/
def runCallback (h : Host) (w : World) (s : SupState) : Callback → Completion × SupState
  | .startTranscoder => startTranscoder h w s

/-- The pending timer at position `i` fires: it leaves the pending list and
its callback runs. Nothing happens when there is no such timer. -/
def fireTimer (h : Host) (i : Nat) (w : World) (s : SupState) : Completion × SupState :=
  match s.timers.get? i with
  | none => (.returned, s)
  | some t => runCallback h w { s with timers := s.timers.eraseIdx i } t.callback

/-- Assignment to `app.isQuitting`. -/
def setQuitting (b : Bool) (s : SupState) : SupState := { s with isQuitting := b }

/-- One turn of the event loop. A child can exit only if it was spawned and
has not exited before. -/
inductive Step (h : Host) : SupState → SupState → Prop where
  | call (w : World) (s : SupState) : Step h s (startTranscoder h w s).2
  | timer (i : Nat) (w : World) (s : SupState) :
      i < s.timers.length → Step h s (fireTimer h i w s).2
  | exit (c : Nat) (code : Option Int) (s : SupState) :
      c ∈ s.live → Step h s (onExit c code s)
  | flag (b : Bool) (s : SupState) : Step h s (setQuitting b s)

/-- States the supervisor can be in, starting from `SupState.init`. -/
inductive Reachable (h : Host) : SupState → Prop where
  | init : Reachable h SupState.init
  | step {s t : SupState} : Reachable h s → Step h s t → Reachable h t

/-- Calling `startTranscoder` once per element of `ws`, in order: how each
call ended, and the final state. -/
def runCalls (h : Host) : List World → SupState → List Completion × SupState
  | [], s => ([], s)
  | w :: ws, s =>
    let r := startTranscoder h w s
    let rest := runCalls h ws r.2
    (r.1 :: rest.1, rest.2)

/-- Two states that differ at most in what was printed. -/
def SameVars (s t : SupState) : Prop :=
  t.transcoderProc = s.transcoderProc ∧ t.timers = s.timers ∧ t.isQuitting = s.isQuitting ∧
    t.spawned = s.spawned ∧ t.live = s.live

/-- A host used in the worked examples. -/
def demoHost : Host := { dirname := "/app", execPath := "/usr/bin/electron" }

/-- A world in which the server script exists, `ffmpeg-static` resolves and
`spawn` returns a child. -/
def demoWorld : World :=
  { scriptExists := true, ffmpegStatic := .ok (some "/app/node_modules/ffmpeg-static/ffmpeg"),
    processEnv := [("PATH", "/usr/bin"), ("PORT", "8080")], spawnFault := none }

/-- A world that differs from `demoWorld` in that `spawn` throws. -/
def faultyWorld : World := { demoWorld with spawnFault := some "spawn E2BIG" }

/-- A world in which `require('ffmpeg-static')` throws and the inherited
environment already has an `FFMPEG_PATH`. -/
def bareWorld : World :=
  { scriptExists := true, ffmpegStatic := .error "Cannot find module 'ffmpeg-static'",
    processEnv := [("FFMPEG_PATH", "/opt/ffmpeg/bin/ffmpeg")], spawnFault := none }

/-- The state after the first successful launch. -/
def demoRunning : SupState := (startTranscoder demoHost demoWorld SupState.init).2

/-- The invariant behind the single-instance guarantee: the children still
alive are exactly the one the handle refers to, if any. -/
def Inv (s : SupState) : Prop := s.live = s.transcoderProc.toList

end Transcoder

namespace FfmpegSetup

open Transcoder (Level LogLine pathJoin)

/-! ## Provisioner: the file system below `ffmpegRoot` -/

/-- A file system object: a regular file with its permission bits and bytes,
or a directory with its entries in `readdir` order. Permission bits of
directories and symbolic links are not represented. -/
inductive Node where
  | file (mode : Nat) (data : String)
  | dir (entries : List (String × Node))
deriving Repr

/-- Entries of a directory: names with the objects they refer to. -/
abbrev Dir := List (String × Node)

/-- A path below `ffmpegRoot`, as its segments. -/
abbrev Path := List String

/-- Whether the object is a directory (`fs.Stats.isDirectory`). -/
def Node.isDirectory : Node → Bool
  | .dir _ => true
  | .file _ _ => false

/-- The entry called `name`, if there is one. -/
def Dir.find : Dir → String → Option Node
  | [], _ => none
  | (k, n) :: rest, name => if k = name then some n else Dir.find rest name

/-- Bind `name` to `n`: an entry of that name is replaced where it stands,
otherwise the entry is added at the end. -/
def Dir.set : Dir → String → Node → Dir
  | [], name, n => [(name, n)]
  | (k, x) :: rest, name, n =>
    if k = name then (k, n) :: rest else (k, x) :: Dir.set rest name n

/-- Drop the entry called `name`. -/
def Dir.remove : Dir → String → Dir
  | [], _ => []
  | (k, x) :: rest, name =>
    if k = name then Dir.remove rest name else (k, x) :: Dir.remove rest name

/-- The names in a directory, in order (`fs.readdirSync`). -/
def Dir.names (es : Dir) : List String := es.map Prod.fst

/-- The object at a path, if the path resolves. -/
def lookup : Dir → Path → Option Node
  | _, [] => none
  | es, k :: ks =>
    match es.find k with
    | none => none
    | some n =>
      match ks with
      | [] => some n
      | _ :: _ =>
        match n with
        | .dir cs => lookup cs ks
        | .file _ _ => none

/-- Write at a path: `some n` binds the last segment to `n`, `none` removes
it. The result is `none` when the parent of the path is not a directory. -/
def store : Dir → Path → Option Node → Option Dir
  | _, [], _ => none
  | es, k :: ks, v =>
    match ks with
    | [] =>
      match v with
      | some n => some (es.set k n)
      | none => some (es.remove k)
    | _ :: _ =>
      match es.find k with
      | some (.dir cs) => (store cs ks v).map (fun cs' => es.set k (.dir cs'))
      | _ => none

/-- Create the directory at a path together with missing parents
(`mkdirSync` with `recursive: true`); `none` when a file is in the way. -/
def mkdirP : Dir → Path → Option Dir
  | es, [] => some es
  | es, k :: ks =>
    match es.find k with
    | none => (mkdirP [] ks).map (fun cs => es.set k (.dir cs))
    | some (.dir cs) => (mkdirP cs ks).map (fun cs' => es.set k (.dir cs'))
    | some (.file _ _) => none

/-! ## Provisioner: the process and its system calls -/

/-- A call that changes the file system, as issued by the script. -/
inductive FsOp where
  | rm (p : Path)
  | mkdir (p : Path)
  | extract (zip target : Path)
  | rename (src dst : Path)
  | rmdir (p : Path)
  | unlink (p : Path)
  | chmod (p : Path) (mode : Nat)
deriving DecidableEq, Repr

/-- What the extraction command left behind: the entries of the target
directory after it ran, and the error message if it exited non-zero. -/
structure Extraction where
  entries : Dir
  error : Option String

/-- The machine the script runs on. -/
structure Host where
  /-- Whether `process.platform === 'win32'`. -/
  win32 : Bool
  /-- The value of `ffmpegRoot`. -/
  ffmpegRoot : String
  /-- The archive tool (`Expand-Archive` or `unzip -o`), given the object at
  the archive path and the current entries of the target directory. -/
  extract : Node → Dir → Extraction
  /-- Whether `chmodSync` is refused on this path. -/
  chmodDenied : Path → Bool

/-- Everything the script can observe or change. -/
structure Sys where
  fs : Dir
  console : List LogLine
  ops : List FsOp

/-- How a piece of the script ends: with a value, with a thrown error, or by
`process.exit(code)`. -/
inductive Res (α : Type) where
  | ok (a : α)
  | throw (err : String)
  | exit (code : Nat)
deriving Repr

/-- A piece of the script: from the system before to its result and the
system after. -/
def Run (α : Type) : Type := Sys → Res α × Sys

/-- Sequencing: the rest runs only after a normal result. -/
def Run.bind {α β : Type} (m : Run α) (f : α → Run β) : Run β := fun s =>
  match m s with
  | (.ok a, s') => f a s'
  | (.throw e, s') => (.throw e, s')
  | (.exit c, s') => (.exit c, s')

instance : Monad Run where
  pure a := fun s => (.ok a, s)
  bind := Run.bind

/-- A `try`/`catch` block. `process.exit` is not caught. -/
def tryCatch {α : Type} (body : Run α) (handler : String → Run α) : Run α := fun s =>
  match body s with
  | (.throw e, s') => handler e s'
  | r => r

/-- The statement `throw`, as raised inside a system call. -/
def throwErr {α : Type} (err : String) : Run α := fun s => (.throw err, s)

/-- The call `process.exit(code)`. -/
def processExit {α : Type} (code : Nat) : Run α := fun s => (.exit code, s)

/-- Write one line to the console. -/
def print (lvl : Level) (text : String) : Run Unit := fun s =>
  (.ok (), { s with console := s.console ++ [⟨lvl, text⟩] })

/-- Note a file system call in the trace. -/
def record (op : FsOp) : Run Unit := fun s => (.ok (), { s with ops := s.ops ++ [op] })

/-- Read the file system. -/
def getFs : Run Dir := fun s => (.ok s.fs, s)

/-- Replace the file system. -/
def putFs (fs : Dir) : Run Unit := fun s => (.ok (), { s with fs := fs })

/-- The call `fs.existsSync(p)`. -/
def existsSync (p : Path) : Run Bool := do
  let fs ← getFs
  pure (lookup fs p).isSome

/-- The call `fs.rmSync(p, { recursive: true, force: true })`: the object and
all below it go; a missing object is not an error. -/
def rmSync (p : Path) : Run Unit := do
  record (.rm p)
  let fs ← getFs
  match lookup fs p with
  | none => pure ()
  | some _ =>
    match store fs p none with
    | some fs' => putFs fs'
    | none => throwErr "ENOENT"

/-- The call `fs.mkdirSync(p, { recursive: true })`. -/
def mkdirSync (p : Path) : Run Unit := do
  record (.mkdir p)
  let fs ← getFs
  match mkdirP fs p with
  | some fs' => putFs fs'
  | none => throwErr "EEXIST"

/-- The call `execSync` on the extraction command line: the archive tool runs
on the archive and the target directory; a non-zero exit is thrown. -/
def execExtract (host : Host) (zip target : Path) : Run Unit := do
  record (.extract zip target)
  let fs ← getFs
  match lookup fs zip, lookup fs target with
  | some archive, some (.dir es) =>
    match store fs target (some (.dir (host.extract archive es).entries)) with
    | none => throwErr "ENOENT"
    | some fs' =>
      putFs fs'
      match (host.extract archive es).error with
      | none => pure ()
      | some msg => throwErr msg
  | _, _ => throwErr "Command failed"

/-- The call `fs.readdirSync(p)`. -/
def readdirSync (p : Path) : Run (List String) := do
  let fs ← getFs
  match lookup fs p with
  | some (.dir es) => pure (Dir.names es)
  | some (.file _ _) => throwErr "ENOTDIR"
  | none => throwErr "ENOENT"

/-- The call `fs.statSync(p).isDirectory()`. -/
def statIsDirectory (p : Path) : Run Bool := do
  let fs ← getFs
  match lookup fs p with
  | some n => pure n.isDirectory
  | none => throwErr "ENOENT"

/-- Whether `rename` may put `src` in the place of an existing `dst` that is
not one of its ancestors: a file replaces a file, a directory replaces an
empty directory. -/
def replaceError (src dst : Node) : Option String :=
  match src, dst with
  | .file _ _, .file _ _ => none
  | .file _ _, .dir _ => some "EISDIR"
  | .dir _, .file _ _ => some "ENOTDIR"
  | .dir _, .dir [] => none
  | .dir _, .dir (_ :: _) => some "ENOTEMPTY"

/-- Whether the first path is a proper ancestor of the second: the second
lies below the first. -/
def isAncestor : Path → Path → Bool
  | [], _ :: _ => true
  | a :: as, b :: bs => a == b && isAncestor as bs
  | _, [] => false

/-- The error, if any, that stops `rename` from putting the object `n` found
at `src` in the place of `dst`. A destination that is an ancestor of the
source is a directory that still holds the source, so it is refused as not
empty whatever the source is; any other existing destination is judged by
`replaceError`. -/
def clashError (fs : Dir) (src : Path) (n : Node) (dst : Path) : Option String :=
  match lookup fs dst with
  | none => none
  | some d => if isAncestor dst src then some "ENOTEMPTY" else replaceError n d

/-- The call `fs.renameSync(src, dst)` with the rules of `rename(2)`. -/
def renameSync (src dst : Path) : Run Unit := do
  record (.rename src dst)
  let fs ← getFs
  match lookup fs src with
  | none => throwErr "ENOENT"
  | some n =>
    match clashError fs src n dst with
    | some err => throwErr err
    | none =>
      match store fs src none with
      | none => throwErr "ENOENT"
      | some fs1 =>
        match store fs1 dst (some n) with
        | none => throwErr "ENOENT"
        | some fs2 => putFs fs2

/-- The call `fs.rmdirSync(p)`: only an empty directory can be removed. -/
def rmdirSync (p : Path) : Run Unit := do
  record (.rmdir p)
  let fs ← getFs
  match lookup fs p with
  | none => throwErr "ENOENT"
  | some (.file _ _) => throwErr "ENOTDIR"
  | some (.dir (_ :: _)) => throwErr "ENOTEMPTY"
  | some (.dir []) =>
    match store fs p none with
    | some fs' => putFs fs'
    | none => throwErr "ENOENT"

/-- The call `fs.unlinkSync(p)`: removes a file, refuses a directory. -/
def unlinkSync (p : Path) : Run Unit := do
  record (.unlink p)
  let fs ← getFs
  match lookup fs p with
  | none => throwErr "ENOENT"
  | some (.dir _) => throwErr "EISDIR"
  | some (.file _ _) =>
    match store fs p none with
    | some fs' => putFs fs'
    | none => throwErr "ENOENT"

/-- The call `fs.chmodSync(p, mode)`. -/
def chmodSync (host : Host) (p : Path) (mode : Nat) : Run Unit := do
  record (.chmod p mode)
  let fs ← getFs
  match lookup fs p with
  | none => throwErr "ENOENT"
  | some n =>
    if host.chmodDenied p then throwErr "EPERM"
    else
      match n with
      | .dir _ => pure ()
      | .file _ data =>
        match store fs p (some (.file mode data)) with
        | some fs' => putFs fs'
        | none => throwErr "ENOENT"

/-- The object with its permission bits set to `mode`. -/
def Node.withMode (mode : Nat) : Node → Node
  | .file _ data => .file mode data
  | .dir es => .dir es

/-- The file system after a `chmodSync(p, mode)` that was not refused. -/
def chmodFs (fs : Dir) (p : Path) (mode : Nat) : Dir :=
  match lookup fs p with
  | some n => (store fs p (some (n.withMode mode))).getD fs
  | none => fs

/-! ## Provisioner: `setup-ffmpeg.js` -/

/-- The constant `zipName`. -/
def zipName (platform : String) : String := "ffmpeg" ++ platform ++ ".zip"

/-- Last segment of `targetFolder`. -/
def targetName (platform : String) : String := "ffmpeg" ++ platform

/-- The constant `zipPath`, below `ffmpegRoot`. -/
def zipPath (platform : String) : Path := [zipName platform]

/-- The constant `targetFolder`, below `ffmpegRoot`. -/
def targetFolder (platform : String) : Path := [targetName platform]

/-- A path below `ffmpegRoot` as the script prints it. -/
def showPath (host : Host) (p : Path) : String := pathJoin (host.ffmpegRoot :: p)

/-- The constant `exeExt` of `verify`. -/
def exeExt (platform : String) : String := if platform = "win" then ".exe" else ""

/-- The constant `ffmpegPath` of `verify`. -/
def ffmpegPath (platform : String) : Path := targetFolder platform ++ ["ffmpeg" ++ exeExt platform]

/-- The constant `ffprobePath` of `verify`. -/
def ffprobePath (platform : String) : Path :=
  targetFolder platform ++ ["ffprobe" ++ exeExt platform]

/-- The permission bits `0o755`. -/
def execMode : Nat := 0o755

/-- The function `verify`, lines 68 to 95. -/
def verify (host : Host) (platform : String) : Run Unit := do
  print .log ("[FFmpeg Setup] Verifying binaries in " ++ showPath host (targetFolder platform)
    ++ "...")
  let ffmpegExists ← existsSync (ffmpegPath platform)
  let ffprobeExists ← existsSync (ffprobePath platform)
  if ffmpegExists && ffprobeExists then
    print .log "[FFmpeg Setup] ✅ SUCCESS: ffmpeg and ffprobe found."
    print .log "[FFmpeg Setup] These will work in the build version."
    if !host.win32 then
      tryCatch
        (do chmodSync host (ffmpegPath platform) execMode
            chmodSync host (ffprobePath platform) execMode)
        (fun _ => pure ())
  else
    print .error "[FFmpeg Setup] ❌ ERROR: Binaries missing!"
    if !ffmpegExists then
      print .error ("  - Missing: " ++ showPath host (ffmpegPath platform))
    if !ffprobeExists then
      print .error ("  - Missing: " ++ showPath host (ffprobePath platform))
    processExit 1

/-- A directory listing with the permission bits of its files blanked. -/
def blankModes (es : Dir) : Dir := es.map (fun e => (e.1, e.2.withMode 0))

/-- The file system below `ffmpegRoot` with the permission bits blanked on the
files directly in it and directly in its subdirectories; everything else,
names and order included, is kept. -/
def blankModes2 (fs : Dir) : Dir :=
  fs.map (fun e => (e.1, match e.2 with
    | .dir cs => Node.dir (blankModes cs)
    | n => n.withMode 0))

/-- The file system `verify` leaves behind when it finds both binaries: the
two `chmodSync` calls of lines 85 and 86, up to the first one refused. -/
def verifiedFs (host : Host) (platform : String) (fs : Dir) : Dir :=
  if host.win32 then fs
  else if host.chmodDenied (ffmpegPath platform) then fs
  else if host.chmodDenied (ffprobePath platform) then
    chmodFs fs (ffmpegPath platform) execMode
  else chmodFs (chmodFs fs (ffmpegPath platform) execMode) (ffprobePath platform) execMode

/-- The file system calls `verify` issues when it finds both binaries. -/
def verifiedOps (host : Host) (platform : String) : List FsOp :=
  if host.win32 then []
  else if host.chmodDenied (ffmpegPath platform) then [.chmod (ffmpegPath platform) execMode]
  else [.chmod (ffmpegPath platform) execMode, .chmod (ffprobePath platform) execMode]

/-- The line `verify` prints for a missing binary. -/
def missingLine (host : Host) (p : Path) : LogLine :=
  ⟨.error, "  - Missing: " ++ showPath host p⟩

/-- What was printed between two states of the system. -/
def printed (before after : Sys) : List LogLine := after.console.drop before.console.length

/-- The expected paths that `lines` report as missing. -/
def reportedMissing (host : Host) (platform : String) (lines : List LogLine) : List Path :=
  [ffmpegPath platform, ffprobePath platform].filter (fun p => decide (missingLine host p ∈ lines))

/-- The `forEach` of lines 55 to 57: each name is moved from `nestedDir` to
`currentDir`, in order. -/
def moveUp (nestedDir currentDir : Path) : List String → Run Unit
  | [] => pure ()
  | file :: rest => do
    renameSync (nestedDir ++ [file]) (currentDir ++ [file])
    moveUp nestedDir currentDir rest

/-- The flatten pass, lines 47 to 59. -/
def flatten (platform : String) : Run Unit := do
  let currentDir := targetFolder platform
  let contents ← readdirSync currentDir
  match contents with
  | [only] =>
    let isDir ← statIsDirectory (currentDir ++ [only])
    if isDir then
      let nestedDir := currentDir ++ [only]
      print .log ("[FFmpeg Setup] Detected nested directory " ++ only ++ ", flattening...")
      let nestedContents ← readdirSync nestedDir
      moveUp nestedDir currentDir nestedContents
      rmdirSync nestedDir
  | _ => pure ()

/-- Lines 25 to 65 of `setup`: what is done when the archive exists. -/
def unpack (host : Host) (platform : String) : Run Unit := do
  let targetExists ← existsSync (targetFolder platform)
  (if targetExists then rmSync (targetFolder platform) else pure ())
  mkdirSync (targetFolder platform)
  print .log ("[FFmpeg Setup] Extracting " ++ zipName platform ++ "...")
  tryCatch (execExtract host (zipPath platform) (targetFolder platform))
    (fun msg => do
      print .error ("[FFmpeg Setup] Extraction failed: " ++ msg)
      processExit 1)
  flatten platform
  print .log ("[FFmpeg Setup] Removing " ++ zipName platform ++ "...")
  unlinkSync (zipPath platform)
  verify host platform

/-- The function `setup`, lines 16 to 66. -/
def setup (host : Host) (platform : String) : Run Unit := do
  print .log ("[FFmpeg Setup] Processing " ++ platform ++ "...")
  let zipExists ← existsSync (zipPath platform)
  if !zipExists then
    print .warn ("[FFmpeg Setup] Archive " ++ zipName platform ++ " not found in "
      ++ host.ffmpegRoot ++ ". Skipping extraction.")
    verify host platform
  else
    unpack host platform

/-- The script from top to bottom: the usage check of lines 5 to 9, then
`setup().catch(...)` of lines 97 to 100. -/
def script (host : Host) (argv2 : Option String) : Run Unit :=
  match argv2 with
  | none => do
    print .error "Usage: node setup-ffmpeg.js <win|mac|linux>"
    processExit 1
  | some platform =>
    if platform = "" then do
      print .error "Usage: node setup-ffmpeg.js <win|mac|linux>"
      processExit 1
    else
      tryCatch (setup host platform)
        (fun err => do
          print .error err
          processExit 1)

/-- Exit status of the process after a run of the script: the argument of
`process.exit`, or 0 when the script runs to its end. An error that nothing
catches ends the process with status 1. -/
def exitStatus {α : Type} : Res α → Nat
  | .ok _ => 0
  | .throw _ => 1
  | .exit c => c

/-- Running the provisioner for `platform` on a file system: the exit status
and the system it leaves. -/
def provision (host : Host) (platform : String) (fs : Dir) : Nat × Sys :=
  let r := script host (some platform) { fs := fs, console := [], ops := [] }
  (exitStatus r.1, r.2)

/-! ## Provisioner: properties of pieces of the script -/

/-- The piece never ends the process. -/
def NeverExits {α : Type} (m : Run α) : Prop := ∀ s c t, m s ≠ (.exit c, t)

/-- Whenever the piece ends the process, it does so with status 1. -/
def ExitsWithOne {α : Type} (m : Run α) : Prop := ∀ s c t, m s = (.exit c, t) → c = 1

/-- Started where `P` holds, the piece, if it returns normally, returns a
value and a system for which `Q` holds. -/
def Ensures {α : Type} (P : Sys → Prop) (m : Run α) (Q : α → Sys → Prop) : Prop :=
  ∀ s a t, P s → m s = (.ok a, t) → Q a t

/-- What a successful run leaves: no archive, both binaries in the target
directory, and permission bits that `verify` would not change again. -/
def Provisioned (host : Host) (platform : String) (fs : Dir) : Prop :=
  lookup fs (zipPath platform) = none ∧
  (lookup fs (ffmpegPath platform)).isSome = true ∧
  (lookup fs (ffprobePath platform)).isSome = true ∧
  verifiedFs host platform fs = fs

/-! ## Provisioner: worked examples -/

/-- A Unix build machine whose archive tool unpacks `payload`. -/
def unpacking (payload : Dir) : Host :=
  { win32 := false, ffmpegRoot := "/repo/ffmpeg",
    extract := fun _ _ => ⟨payload, none⟩, chmodDenied := fun _ => false }

/-- A binary as it comes out of an archive. -/
def binary : Node := .file 0o644 "ELF"

/-- An archive file. -/
def archive : Node := .file 0o644 "PK"

/-- A payload with a licence file next to the two binaries. -/
def licensedPayload : Dir :=
  [("ffmpeg", binary), ("ffprobe", binary), ("LICENSE", .file 0o644 "GPL")]

/-- A payload that wraps the two binaries in a folder called `ffmpeg`. -/
def wrappedPayload : Dir := [("ffmpeg", .dir [("ffmpeg", binary), ("ffprobe", binary)])]

/-- The directory `ffmpegRoot` holding only the archive for `linux`. -/
def archiveOnly : Dir := [("ffmpeglinux.zip", archive)]

/-- The directory `ffmpegRoot` with binaries for `mac` put there by hand and
no archive. -/
def handPlaced : Dir := [("ffmpegmac", .dir [("ffmpeg", binary), ("ffprobe", binary)])]

/-- A system whose target directory for `linux` holds `wrappedPayload`, as
left by the extraction step. -/
def wrappedExtracted : Sys :=
  { fs := [("ffmpeglinux.zip", archive), ("ffmpeglinux", .dir wrappedPayload)],
    console := [], ops := [] }

/-- A system whose target directory for `mac` is flat. -/
def flatTarget : Sys := { fs := handPlaced, console := [], ops := [] }

/-- A system in which only `ffprobe` is present for the tag `linux`. -/
def onlyProbe : Sys :=
  { fs := [("ffmpeglinux", .dir [("ffprobe", binary)])], console := [], ops := [] }

end FfmpegSetup

namespace AndroidBridge

open Transcoder (Level LogLine)

/-! ## Android bridge: installed addons -/

/-- An addon manifest as fetched: its `id`, a string, and the rest of the
document. -/
structure Manifest where
  id : String
  rest : String
deriving DecidableEq, Repr

/-- An installed addon, the object `{ url, manifest }`. -/
structure Addon where
  url : String
  manifest : Manifest
deriving DecidableEq, Repr

/-- What the preferences hold under the key `installed_addons`. -/
inductive Stored where
  /-- No value, or the empty string. -/
  | absent
  /-- The JSON text of a list of addons. -/
  | addons (list : List Addon)
  /-- A text on which `JSON.parse`, or the use of its result as a list of
  addons, throws the given error. -/
  | other (error : String)
deriving DecidableEq, Repr

/-- What the outside world answers during one call of `addonInstall`. -/
structure Remote where
  /-- Message of the error when `Preferences.get` rejects. -/
  getFault : Option String
  /-- Result of `fetch(url)` followed by `response.json()`: the manifest, or
  the message of the error. -/
  fetched : Except String Manifest
  /-- Message of the error when `Preferences.set` rejects. -/
  setFault : Option String

/-- State of the bridge: the stored addons and the console. -/
structure BridgeState where
  stored : Stored
  console : List LogLine
deriving DecidableEq, Repr

/-- The object `addonInstall` resolves to. -/
structure Reply where
  success : Bool
  message : Option String
deriving DecidableEq, Repr

/-- The method `Array.prototype.findIndex`: the position of the first element
that satisfies `p`, or -1. -/
def findIndex {α : Type} (p : α → Bool) : List α → Int
  | [] => -1
  | a :: rest =>
    if p a then 0
    else if findIndex p rest ≥ 0 then findIndex p rest + 1 else -1

/-- Line 60: `addonsData.value ? JSON.parse(addonsData.value) : []`. -/
def readAddons : Stored → Except String (List Addon)
  | .absent => .ok []
  | .addons list => .ok list
  | .other error => .error error

/-- Lines 66 to 72: replace the entry that has the id of `manifest`, or add
a new entry at the end. -/
def upsert (addons : List Addon) (url : String) (manifest : Manifest) : List Addon :=
  let existingIndex := findIndex (fun a => a.manifest.id == manifest.id) addons
  if existingIndex ≥ 0 then
    addons.set existingIndex.toNat { url := url, manifest := manifest }
  else
    addons ++ [{ url := url, manifest := manifest }]

/-- The `try` block of `addonInstall`, lines 58 to 75: the list it stores, or
the message of the error that leaves it. -/
def installBody (w : Remote) (url : String) (s : BridgeState) : Except String (List Addon) := do
  match w.getFault with
  | some error => throw error
  | none => pure ()
  let addons ← readAddons s.stored
  let manifest ← w.fetched
  let addons := upsert addons url manifest
  match w.setFault with
  | some error => throw error
  | none => pure ()
  pure addons

/-- The method `electronAPI.addonInstall`, lines 57 to 80. -/
def addonInstall (w : Remote) (url : String) (s : BridgeState) : Reply × BridgeState :=
  match installBody w url s with
  | .ok addons =>
    ({ success := true, message := none }, { s with stored := .addons addons })
  | .error error =>
    ({ success := false, message := some error },
     { s with console := s.console ++
        [⟨.error, "[Android Bridge] addonInstall error: " ++ error⟩] })

/-- The ids of a list of addons, in order. -/
def ids (addons : List Addon) : List String := addons.map (fun a => a.manifest.id)

/-! ## Android bridge: worked example -/

/-- A manifest for the addon `org.cinema`. -/
def cinema (rest : String) : Manifest := { id := "org.cinema", rest := rest }

/-- Two installed addons. -/
def twoAddons : List Addon :=
  [{ url := "https://a.example/manifest.json", manifest := cinema "v1" },
   { url := "https://b.example/manifest.json", manifest := { id := "org.subs", rest := "v7" } }]

/-- A bridge with `twoAddons` stored. -/
def twoInstalled : BridgeState := { stored := .addons twoAddons, console := [] }

/-- A world in which nothing fails and the fetch yields a newer manifest of
`org.cinema`. -/
def updateWorld : Remote :=
  { getFault := none, fetched := .ok (cinema "v2"), setFault := none }

end AndroidBridge

namespace Transcoder

/-! ## Supervisor: proofs -/

theorem sameVars_refl (s : SupState) : SameVars s s := ⟨rfl, rfl, rfl, rfl, rfl⟩

theorem sameVars_trans {s t u : SupState} (h1 : SameVars s t) (h2 : SameVars t u) :
    SameVars s u := by
  obtain ⟨a1, a2, a3, a4, a5⟩ := h1
  obtain ⟨b1, b2, b3, b4, b5⟩ := h2
  exact ⟨b1.trans a1, b2.trans a2, b3.trans a3, b4.trans a4, b5.trans a5⟩

theorem print_sameVars (s : SupState) (l : Level) (x : String) : SameVars s (s.print l x) :=
  ⟨rfl, rfl, rfl, rfl, rfl⟩

theorem resolveFfmpeg_sameVars (w : World) (s : SupState) :
    SameVars s (resolveFfmpeg w s).2 := by
  unfold resolveFfmpeg
  split
  · exact sameVars_refl s
  · exact print_sameVars _ _ _

theorem overrideFfmpeg_sameVars (b : JsStr) (e : Environ) (s : SupState) :
    SameVars s (overrideFfmpeg b e s).2 := by
  unfold overrideFfmpeg
  split
  · exact print_sameVars _ _ _
  · exact sameVars_refl s

theorem prepareEnv_sameVars (w : World) (s : SupState) : SameVars s (prepareEnv w s).2 :=
  sameVars_trans (resolveFfmpeg_sameVars w s) (overrideFfmpeg_sameVars _ _ _)

theorem startTranscoder_handle_set (h : Host) (w : World) (s : SupState)
    (hs : s.transcoderProc ≠ none) : startTranscoder h w s = (.returned, s) := by
  unfold startTranscoder
  cases hp : s.transcoderProc with
  | none => exact absurd hp hs
  | some c => simp

theorem spawnChild_inv (h : Host) (w : World) (e : Environ) (s : SupState)
    (hp : s.transcoderProc = none) (hl : s.live = []) : Inv (spawnChild h w e s).2 := by
  unfold spawnChild
  split
  · simp [Inv, hp, hl]
  · simp [Inv, hl]

theorem startTranscoder_inv (h : Host) (w : World) (s : SupState) (hi : Inv s) :
    Inv (startTranscoder h w s).2 := by
  unfold startTranscoder
  cases hp : s.transcoderProc with
  | some c => simpa using hi
  | none =>
    have hl : s.live = [] := by simpa [Inv, hp] using hi
    simp only [Option.isSome_none, Bool.false_eq_true, if_false]
    split
    · simpa [Inv, SupState.print, hp] using hl
    · have hv := sameVars_trans (print_sameVars s .log "[Transcoder] Starting...")
        (prepareEnv_sameVars w _)
      exact spawnChild_inv h w _ _ (hv.1.trans hp) (hv.2.2.2.2.trans hl)

/-- With the handle null and the script present, `startTranscoder` ends the
way the `spawn` call ends, in the state `spawnChild` leaves. -/
theorem startTranscoder_launch (h : Host) (w : World) (s : SupState)
    (hp : s.transcoderProc = none) (hx : w.scriptExists = true) :
    startTranscoder h w s
      = spawnChild h w (prepareEnv w (s.print .log "[Transcoder] Starting...")).1
          (prepareEnv w (s.print .log "[Transcoder] Starting...")).2 := by
  simp [startTranscoder, hp, hx]

theorem startTranscoder_spawns (h : Host) (w : World) (s : SupState)
    (hp : s.transcoderProc = none) (hx : w.scriptExists = true) (hf : w.spawnFault = none) :
    (startTranscoder h w s).1 = Completion.returned ∧
    (startTranscoder h w s).2.transcoderProc = some s.spawned.length ∧
    (startTranscoder h w s).2.spawned.length = s.spawned.length + 1 ∧
    (startTranscoder h w s).2.live = s.live ++ [s.spawned.length] ∧
    (startTranscoder h w s).2.timers = s.timers := by
  obtain ⟨_, v2, _, v4, v5⟩ := sameVars_trans (print_sameVars s .log "[Transcoder] Starting...")
    (prepareEnv_sameVars w _)
  rw [startTranscoder_launch h w s hp hx]
  simp [spawnChild, hf, v2, v4, v5]

theorem onExit_inv (c : Nat) (code : Option Int) (s : SupState) (hi : Inv s)
    (hc : c ∈ s.live) : Inv (onExit c code s) := by
  unfold Inv at hi
  cases hp : s.transcoderProc with
  | none => rw [hi, hp] at hc; simp at hc
  | some d =>
    rw [hp] at hi
    have hcd : c = d := by rw [hi] at hc; simpa using hc
    cases hq : s.isQuitting <;> simp [onExit, Inv, SupState.print, hq, hi, hcd]

theorem fireTimer_inv (h : Host) (i : Nat) (w : World) (s : SupState) (hi : Inv s) :
    Inv (fireTimer h i w s).2 := by
  unfold fireTimer
  split
  · exact hi
  · rename_i t _
    cases t.callback
    exact startTranscoder_inv h w _ hi

theorem step_inv (h : Host) {s t : SupState} (hs : Step h s t) (hi : Inv s) : Inv t := by
  cases hs with
  | call w => exact startTranscoder_inv h w s hi
  | timer i w _ => exact fireTimer_inv h i w s hi
  | exit c code _ hc => exact onExit_inv c code s hi hc
  | flag b => exact hi

theorem reachable_inv (h : Host) {s : SupState} (hr : Reachable h s) : Inv s := by
  induction hr with
  | init => rfl
  | step _ hs ih => exact step_inv h hs ih

theorem runCalls_handle_set (h : Host) (ws : List World) (s : SupState)
    (hs : s.transcoderProc ≠ none) :
    runCalls h ws s = (List.replicate ws.length Completion.returned, s) := by
  induction ws with
  | nil => rfl
  | cons w ws ih =>
    simp only [runCalls, startTranscoder_handle_set h w s hs, ih, List.length_cons,
      List.replicate_succ]

/-- C1. In every state reachable from the initial one by calls of
`startTranscoder`, timer firings, child exits and assignments to
`app.isQuitting`, at most one spawned child has not exited (the live children
are exactly the one the handle refers to), and while the handle is non-null
any number of calls of `startTranscoder` return at once and leave the whole
state, so also the list of spawned children, unchanged. -/
theorem at_most_one_live_child (h : Host) (s : SupState) (hr : Reachable h s) :
    s.live.length ≤ 1 ∧ s.live = s.transcoderProc.toList ∧
      ∀ ws : List World, s.transcoderProc ≠ none →
        runCalls h ws s = (List.replicate ws.length Completion.returned, s) := by
  have hi : s.live = s.transcoderProc.toList := reachable_inv h hr
  refine ⟨?_, hi, fun ws hs => runCalls_handle_set h ws s hs⟩
  rw [hi]
  cases s.transcoderProc <;> simp

/-- C1, worked example: after the first launch the handle is set, one child
is alive, and two further calls, one of them in a world where `spawn` would
throw, return and change nothing. -/
theorem at_most_one_live_child_witness :
    Reachable demoHost demoRunning ∧ demoRunning.transcoderProc ≠ none ∧
    demoRunning.live.length ≤ 1 ∧ demoRunning.live = [0] ∧
    runCalls demoHost [demoWorld, faultyWorld] demoRunning
      = ([Completion.returned, Completion.returned], demoRunning) :=
  ⟨Reachable.step Reachable.init (Step.call demoWorld SupState.init), by decide,
    (at_most_one_live_child demoHost demoRunning
      (Reachable.step Reachable.init (Step.call demoWorld SupState.init))).1,
    (at_most_one_live_child demoHost demoRunning
      (Reachable.step Reachable.init (Step.call demoWorld SupState.init))).2.1,
    (at_most_one_live_child demoHost demoRunning
      (Reachable.step Reachable.init (Step.call demoWorld SupState.init))).2.2
      [demoWorld, faultyWorld] (by decide)⟩

/-- C2, counterexample. The running child of `demoRunning` has exited with
code 1 while the application was not quitting, so the handle is null and one
timer is pending; the server script is present. The timer fires in a world
where `spawn` throws: the error leaves the callback, no child is spawned, the
handle is still null and the timer is gone. -/
theorem restart_fails_when_spawn_throws :
    (onExit 0 (some 1) demoRunning).transcoderProc = none ∧
    (onExit 0 (some 1) demoRunning).timers = [⟨Callback.startTranscoder, 5000⟩] ∧
    faultyWorld.scriptExists = true ∧
    (fireTimer demoHost 0 faultyWorld (onExit 0 (some 1) demoRunning)).1
      = Completion.threw "spawn E2BIG" ∧
    (fireTimer demoHost 0 faultyWorld (onExit 0 (some 1) demoRunning)).2.transcoderProc
      = none ∧
    (fireTimer demoHost 0 faultyWorld (onExit 0 (some 1) demoRunning)).2.spawned
      = (onExit 0 (some 1) demoRunning).spawned ∧
    (fireTimer demoHost 0 faultyWorld (onExit 0 (some 1) demoRunning)).2.timers = [] := by
  decide

/-- C2, as the code behaves. For every exit code, handling a child exit while
`app.isQuitting` is false sets the handle to null and adds exactly one timer,
for `startTranscoder` with delay 5000, to the pending timers, spawning
nothing itself; and whenever such a timer fires in a state whose handle is
null, with the server script present and a `spawn` call that returns a child
instead of throwing, a new child is spawned, the handle refers to it, and the
timer is no longer pending. -/
theorem exit_schedules_one_restart (h : Host) (s : SupState) (c : Nat) (code : Option Int)
    (hq : s.isQuitting = false) :
    (onExit c code s).transcoderProc = none ∧
    (onExit c code s).timers = s.timers ++ [⟨Callback.startTranscoder, 5000⟩] ∧
    (onExit c code s).spawned = s.spawned ∧
    ∀ (t : SupState) (i : Nat) (w : World),
      t.timers.get? i = some ⟨Callback.startTranscoder, 5000⟩ →
      t.transcoderProc = none → w.scriptExists = true → w.spawnFault = none →
        (fireTimer h i w t).2.transcoderProc = some t.spawned.length ∧
        (fireTimer h i w t).2.spawned.length = t.spawned.length + 1 ∧
        (fireTimer h i w t).2.live = t.live ++ [t.spawned.length] ∧
        (fireTimer h i w t).2.timers = t.timers.eraseIdx i := by
  refine ⟨?_, ?_, ?_, ?_⟩
  · simp [onExit, SupState.print, hq]
  · simp [onExit, SupState.print, hq, restartDelay]
  · simp [onExit, SupState.print, hq]
  · intro t i w ht hp hx hf
    have hfire : fireTimer h i w t
        = startTranscoder h w { t with timers := t.timers.eraseIdx i } := by
      simp only [fireTimer, ht, runCallback]
    rw [hfire]
    exact (startTranscoder_spawns h w { t with timers := t.timers.eraseIdx i } hp hx hf).2

/-- C2, worked example: the running child of `demoRunning` exits with code 1
while the application is not quitting; one timer is pending afterwards, and
firing it in a world where `spawn` returns launches a second child, which
becomes the handle. -/
theorem exit_schedules_one_restart_witness :
    demoRunning.isQuitting = false ∧
    (onExit 0 (some 1) demoRunning).transcoderProc = none ∧
    (onExit 0 (some 1) demoRunning).timers = [⟨Callback.startTranscoder, 5000⟩] ∧
    demoWorld.scriptExists = true ∧ demoWorld.spawnFault = none ∧
    (fireTimer demoHost 0 demoWorld (onExit 0 (some 1) demoRunning)).2.transcoderProc
      = some 1 ∧
    (fireTimer demoHost 0 demoWorld (onExit 0 (some 1) demoRunning)).2.spawned.length = 2 ∧
    (fireTimer demoHost 0 demoWorld (onExit 0 (some 1) demoRunning)).2.live = [1] ∧
    (fireTimer demoHost 0 demoWorld (onExit 0 (some 1) demoRunning)).2.timers = [] :=
  ⟨by decide,
    (exit_schedules_one_restart demoHost demoRunning 0 (some 1) (by decide)).1,
    (exit_schedules_one_restart demoHost demoRunning 0 (some 1) (by decide)).2.1,
    rfl, rfl,
    ((exit_schedules_one_restart demoHost demoRunning 0 (some 1) (by decide)).2.2.2
      (onExit 0 (some 1) demoRunning) 0 demoWorld (by decide) (by decide) rfl rfl).1,
    ((exit_schedules_one_restart demoHost demoRunning 0 (some 1) (by decide)).2.2.2
      (onExit 0 (some 1) demoRunning) 0 demoWorld (by decide) (by decide) rfl rfl).2.1,
    ((exit_schedules_one_restart demoHost demoRunning 0 (some 1) (by decide)).2.2.2
      (onExit 0 (some 1) demoRunning) 0 demoWorld (by decide) (by decide) rfl rfl).2.2.1,
    ((exit_schedules_one_restart demoHost demoRunning 0 (some 1) (by decide)).2.2.2
      (onExit 0 (some 1) demoRunning) 0 demoWorld (by decide) (by decide) rfl rfl).2.2.2⟩

/-- C3. For every exit code, handling a child exit while `app.isQuitting` is
true schedules nothing and spawns nothing: the pending timers and the list of
spawned children are unchanged, the handle becomes null, the flag stays set,
and no child is alive afterwards that was not alive before. -/
theorem exit_while_quitting_no_restart (s : SupState) (c : Nat) (code : Option Int)
    (hq : s.isQuitting = true) :
    (onExit c code s).timers = s.timers ∧
    (onExit c code s).transcoderProc = none ∧
    (onExit c code s).spawned = s.spawned ∧
    (onExit c code s).live = s.live.erase c ∧
    (onExit c code s).isQuitting = true := by
  simp [onExit, SupState.print, hq]

/-- C3, worked example: the flag is set right after the first launch and the
child then exits with code 0. -/
theorem exit_while_quitting_no_restart_witness :
    (setQuitting true demoRunning).isQuitting = true ∧
    ((onExit 0 (some 0) (setQuitting true demoRunning)).timers
        = (setQuitting true demoRunning).timers ∧
     (onExit 0 (some 0) (setQuitting true demoRunning)).transcoderProc = none ∧
     (onExit 0 (some 0) (setQuitting true demoRunning)).spawned
        = (setQuitting true demoRunning).spawned ∧
     (onExit 0 (some 0) (setQuitting true demoRunning)).live
        = (setQuitting true demoRunning).live.erase 0 ∧
     (onExit 0 (some 0) (setQuitting true demoRunning)).isQuitting = true) :=
  ⟨rfl, exit_while_quitting_no_restart (setQuitting true demoRunning) 0 (some 0) rfl⟩

/-- C10, counterexample. From the initial state (handle null), with the
server script present and a `spawn` call that throws, `startTranscoder` does
not return to its caller: the error leaves the function, and the console holds
only the two lines printed before the `spawn` call. -/
theorem spawn_failure_not_caught :
    SupState.init.transcoderProc = none ∧ faultyWorld.scriptExists = true ∧
    (startTranscoder demoHost faultyWorld SupState.init).1 ≠ Completion.returned ∧
    (startTranscoder demoHost faultyWorld SupState.init).1 = Completion.threw "spawn E2BIG" ∧
    (startTranscoder demoHost faultyWorld SupState.init).2.console
      = [⟨Level.log, "[Transcoder] Starting..."⟩,
         ⟨Level.log,
          "[Transcoder] Using custom ffmpeg: /app/node_modules/ffmpeg-static/ffmpeg"⟩] := by
  decide

/-- C10, as the code behaves. With the handle null and the server script
present, a `spawn` call that throws is not caught: `startTranscoder` ends by
throwing that same error; the handle stays null, no child is recorded, no
timer is scheduled, and the console is what it would be had `spawn` returned
a child, so nothing about the failure is printed. -/
theorem spawn_failure_propagates (h : Host) (w : World) (s : SupState) (msg : String)
    (hp : s.transcoderProc = none) (hx : w.scriptExists = true)
    (hf : w.spawnFault = some msg) :
    (startTranscoder h w s).1 = Completion.threw msg ∧
    (startTranscoder h w s).2.transcoderProc = none ∧
    (startTranscoder h w s).2.spawned = s.spawned ∧
    (startTranscoder h w s).2.live = s.live ∧
    (startTranscoder h w s).2.timers = s.timers ∧
    (startTranscoder h w s).2.console
      = (startTranscoder h { w with spawnFault := none } s).2.console := by
  obtain ⟨v1, v2, _, v4, v5⟩ := sameVars_trans (print_sameVars s .log "[Transcoder] Starting...")
    (prepareEnv_sameVars w _)
  have hw : prepareEnv { w with spawnFault := none } (s.print .log "[Transcoder] Starting...")
      = prepareEnv w (s.print .log "[Transcoder] Starting...") := rfl
  rw [startTranscoder_launch h w s hp hx,
    startTranscoder_launch h { w with spawnFault := none } s hp hx, hw]
  simp [spawnChild, hf, v1, v2, v4, v5, hp]

/-- C10, worked example: a first launch from the initial state in which
`spawn` throws. -/
theorem spawn_failure_propagates_witness :
    SupState.init.transcoderProc = none ∧ faultyWorld.scriptExists = true ∧
    faultyWorld.spawnFault = some "spawn E2BIG" ∧
    ((startTranscoder demoHost faultyWorld SupState.init).1 = Completion.threw "spawn E2BIG" ∧
     (startTranscoder demoHost faultyWorld SupState.init).2.transcoderProc = none ∧
     (startTranscoder demoHost faultyWorld SupState.init).2.spawned = SupState.init.spawned ∧
     (startTranscoder demoHost faultyWorld SupState.init).2.live = SupState.init.live ∧
     (startTranscoder demoHost faultyWorld SupState.init).2.timers = SupState.init.timers ∧
     (startTranscoder demoHost faultyWorld SupState.init).2.console
       = (startTranscoder demoHost { faultyWorld with spawnFault := none }
            SupState.init).2.console) :=
  ⟨rfl, rfl, rfl, spawn_failure_propagates demoHost faultyWorld SupState.init "spawn E2BIG"
    rfl rfl rfl⟩

end Transcoder

namespace FfmpegSetup

open Transcoder (Level LogLine pathJoin)

/-! ## Provisioner: proofs -/

/-! ### Directory entries -/

theorem find_set_same (es : Dir) (k : String) (n : Node) : (es.set k n).find k = some n := by
  induction es with
  | nil => simp [Dir.set, Dir.find]
  | cons e rest ih =>
    obtain ⟨k', x⟩ := e
    by_cases hk : k' = k
    · simp [Dir.set, Dir.find, hk]
    · simp [Dir.set, Dir.find, hk, ih]

theorem find_set_other (es : Dir) (k k' : String) (n : Node) (hk : k ≠ k') :
    (es.set k n).find k' = es.find k' := by
  induction es with
  | nil => simp [Dir.set, Dir.find, hk]
  | cons e rest ih =>
    obtain ⟨j, x⟩ := e
    by_cases hj : j = k
    · subst hj; simp [Dir.set, Dir.find, hk]
    · by_cases hj' : j = k'
      · subst hj'; simp [Dir.set, Dir.find, hj]
      · simp [Dir.set, Dir.find, hj, hj', ih]

theorem find_remove_same (es : Dir) (k : String) : (es.remove k).find k = none := by
  induction es with
  | nil => rfl
  | cons e rest ih =>
    obtain ⟨j, x⟩ := e
    by_cases hj : j = k
    · simp [Dir.remove, hj, ih]
    · simp [Dir.remove, Dir.find, hj, ih]

theorem find_remove_other (es : Dir) (k k' : String) (hk : k ≠ k') :
    (es.remove k).find k' = es.find k' := by
  induction es with
  | nil => rfl
  | cons e rest ih =>
    obtain ⟨j, x⟩ := e
    by_cases hj : j = k
    · subst hj; simp [Dir.remove, Dir.find, hk, ih]
    · by_cases hj' : j = k'
      · subst hj'; simp [Dir.remove, Dir.find, hj]
      · simp [Dir.remove, Dir.find, hj, hj', ih]

theorem set_of_find (es : Dir) (k : String) (n : Node) (h : es.find k = some n) :
    es.set k n = es := by
  induction es with
  | nil => simp [Dir.find] at h
  | cons e rest ih =>
    obtain ⟨j, x⟩ := e
    by_cases hj : j = k
    · simp [Dir.find, hj] at h
      simp [Dir.set, hj, h]
    · simp [Dir.find, hj] at h
      simp [Dir.set, hj, ih h]

theorem set_set (es : Dir) (k : String) (n m : Node) : (es.set k n).set k m = es.set k m := by
  induction es with
  | nil => simp [Dir.set]
  | cons e rest ih =>
    obtain ⟨j, x⟩ := e
    by_cases hj : j = k
    · simp [Dir.set, hj]
    · simp [Dir.set, hj, ih]

/-! ### Paths of one and two segments -/

theorem lookup_one (fs : Dir) (a : String) : lookup fs [a] = fs.find a := by
  unfold lookup
  cases fs.find a <;> rfl

theorem lookup_two (fs : Dir) (a b : String) :
    lookup fs [a, b] = match fs.find a with
      | some (.dir cs) => Dir.find cs b
      | _ => none := by
  unfold lookup
  cases h : fs.find a with
  | none => rfl
  | some n =>
    cases n with
    | file m d => rfl
    | dir cs => simp [lookup_one]

theorem store_two (fs : Dir) (a b : String) (v : Option Node) :
    store fs [a, b] v = match fs.find a with
      | some (.dir cs) => some (fs.set a (.dir (match v with
          | some n => Dir.set cs b n
          | none => Dir.remove cs b)))
      | _ => none := by
  unfold store
  cases h : fs.find a with
  | none => rfl
  | some n =>
    cases n with
    | file m d => rfl
    | dir cs => cases v <;> simp [store]

/-! ### The `Run` monad and the system calls -/

theorem run_bind {α β : Type} (m : Run α) (f : α → Run β) (s : Sys) :
    (m >>= f) s = match m s with
      | (.ok a, s') => f a s'
      | (.throw e, s') => (.throw e, s')
      | (.exit c, s') => (.exit c, s') := rfl

theorem run_pure {α : Type} (a : α) (s : Sys) : (pure a : Run α) s = (.ok a, s) := rfl

theorem existsSync_eq (p : Path) (s : Sys) :
    existsSync p s = (.ok (lookup s.fs p).isSome, s) := rfl

theorem print_eq (l : Level) (x : String) (s : Sys) :
    print l x s = (.ok (), { s with console := s.console ++ [⟨l, x⟩] }) := rfl

theorem lookup_isSome_two {fs : Dir} {a b : String} (h : (lookup fs [a, b]).isSome = true) :
    ∃ cs n, fs.find a = some (.dir cs) ∧ Dir.find cs b = some n := by
  rw [lookup_two] at h
  cases ha : fs.find a with
  | none => simp [ha] at h
  | some x =>
    cases x with
    | file m d => simp [ha] at h
    | dir cs =>
      simp only [ha] at h
      obtain ⟨n, hn⟩ := Option.isSome_iff_exists.mp h
      exact ⟨cs, n, rfl, hn⟩

theorem chmodFs_two (fs : Dir) (a b : String) (m : Nat) (cs : Dir)
    (ha : fs.find a = some (.dir cs)) :
    chmodFs fs [a, b] m = fs.set a (.dir (match Dir.find cs b with
      | some n => Dir.set cs b (n.withMode m)
      | none => cs)) := by
  unfold chmodFs
  simp only [lookup_two, store_two, ha]
  cases hb : Dir.find cs b with
  | none => simp [set_of_find fs a _ ha]
  | some n => simp

theorem chmodFs_find_other (fs : Dir) (a b z : String) (m : Nat) (hz : a ≠ z) :
    (chmodFs fs [a, b] m).find z = fs.find z := by
  cases ha : fs.find a with
  | none => simp [chmodFs, lookup_two, ha]
  | some x =>
    cases x with
    | file _ _ => simp [chmodFs, lookup_two, ha]
    | dir cs => rw [chmodFs_two fs a b m cs ha, find_set_other _ _ _ _ hz]

theorem chmodFs_lookup_same_dir (fs : Dir) (a b c : String) (m : Nat) :
    lookup (chmodFs fs [a, b] m) [a, c]
      = if b = c then (lookup fs [a, c]).map (Node.withMode m) else lookup fs [a, c] := by
  cases ha : fs.find a with
  | none =>
    have : chmodFs fs [a, b] m = fs := by simp [chmodFs, lookup_two, ha]
    rw [this]; simp [lookup_two, ha]
  | some x =>
    cases x with
    | file _ _ =>
      have : chmodFs fs [a, b] m = fs := by simp [chmodFs, lookup_two, ha]
      rw [this]; simp [lookup_two, ha]
    | dir cs =>
      rw [chmodFs_two fs a b m cs ha, lookup_two, lookup_two, find_set_same, ha]
      simp only
      by_cases hbc : b = c
      · subst hbc
        cases hb : Dir.find cs b with
        | none => simp [hb]
        | some n => simp [find_set_same]
      · cases hb : Dir.find cs b with
        | none => simp [hbc]
        | some n => simp [hbc, find_set_other _ _ _ _ hbc]

theorem chmodFs_isSome_same_dir (fs : Dir) (a b c : String) (m : Nat) :
    (lookup (chmodFs fs [a, b] m) [a, c]).isSome = (lookup fs [a, c]).isSome := by
  rw [chmodFs_lookup_same_dir]
  split <;> simp

theorem chmodFs_id (fs : Dir) (a b : String) (m : Nat)
    (h : (lookup fs [a, b]).map (Node.withMode m) = lookup fs [a, b]) :
    chmodFs fs [a, b] m = fs := by
  cases ha : fs.find a with
  | none => simp [chmodFs, lookup_two, ha]
  | some x =>
    cases x with
    | file _ _ => simp [chmodFs, lookup_two, ha]
    | dir cs =>
      rw [chmodFs_two fs a b m cs ha]
      rw [lookup_two, ha] at h
      simp only at h
      cases hb : Dir.find cs b with
      | none => simp [set_of_find fs a _ ha]
      | some n =>
        rw [hb] at h
        simp only [Option.map_some', Option.some.injEq] at h
        simp only [h, set_of_find cs b n hb, set_of_find fs a _ ha]

theorem chmodSync_eq (host : Host) (a b : String) (m : Nat) (s : Sys)
    (h : (lookup s.fs [a, b]).isSome = true) :
    chmodSync host [a, b] m s =
      if host.chmodDenied [a, b] then
        (.throw "EPERM", { s with ops := s.ops ++ [.chmod [a, b] m] })
      else
        (.ok (), { fs := chmodFs s.fs [a, b] m, console := s.console,
                   ops := s.ops ++ [.chmod [a, b] m] }) := by
  obtain ⟨cs, n, ha, hb⟩ := lookup_isSome_two h
  have hl : lookup s.fs [a, b] = some n := by rw [lookup_two, ha]; exact hb
  by_cases hd : host.chmodDenied [a, b] = true
  · simp [chmodSync, run_bind, record, getFs, hl, hd, throwErr]
  · cases n with
    | dir es =>
      have hid : chmodFs s.fs [a, b] m = s.fs := chmodFs_id _ _ _ _ (by rw [hl]; rfl)
      simp [chmodSync, run_bind, record, getFs, hl, hd, run_pure, hid]
    | file m' d =>
      have hc := chmodFs_two s.fs a b m cs ha
      rw [hb] at hc
      simp [chmodSync, run_bind, record, getFs, hl, hd, store_two, ha, putFs, hc, Node.withMode]

theorem ffmpegPath_eq (p : String) : ffmpegPath p = [targetName p, "ffmpeg" ++ exeExt p] := rfl

theorem ffprobePath_eq (p : String) : ffprobePath p = [targetName p, "ffprobe" ++ exeExt p] := rfl

theorem ffmpeg_ne_ffprobe (e : String) : "ffmpeg" ++ e ≠ "ffprobe" ++ e := by
  intro h
  have hd := congrArg String.data h
  simp at hd

theorem zipName_ne_targetName (p : String) : zipName p ≠ targetName p := by
  intro h
  have hl := congrArg String.length h
  simp [zipName, targetName, String.length_append] at hl
  exact absurd hl (by decide)

/-- When a binary is missing `verify` prints the two header lines and one
line per missing path, then exits with status 1, leaving the files alone. -/
theorem verify_missing_eq (host : Host) (platform : String) (s : Sys)
    (h : ((lookup s.fs (ffmpegPath platform)).isSome
            && (lookup s.fs (ffprobePath platform)).isSome) = false) :
    verify host platform s = (.exit 1,
      { s with console := s.console ++
          ([⟨.log, "[FFmpeg Setup] Verifying binaries in "
              ++ showPath host (targetFolder platform) ++ "..."⟩,
            ⟨.error, "[FFmpeg Setup] ❌ ERROR: Binaries missing!"⟩]
            ++ ([ffmpegPath platform, ffprobePath platform].filter
                  (fun p => !(lookup s.fs p).isSome)).map (missingLine host)) }) := by
  cases ha : lookup s.fs (ffmpegPath platform) <;>
    cases hb : lookup s.fs (ffprobePath platform) <;>
    simp [ha, hb] at h <;>
    simp [verify, run_bind, existsSync_eq, print_eq, ha, hb, processExit, run_pure,
      missingLine, List.filter]

theorem chmodSync_ffmpeg (host : Host) (p : String) (s : Sys)
    (h : (lookup s.fs (ffmpegPath p)).isSome = true) :
    chmodSync host (ffmpegPath p) execMode s =
      if host.chmodDenied (ffmpegPath p) then
        (.throw "EPERM", { s with ops := s.ops ++ [.chmod (ffmpegPath p) execMode] })
      else
        (.ok (), { fs := chmodFs s.fs (ffmpegPath p) execMode, console := s.console,
                   ops := s.ops ++ [.chmod (ffmpegPath p) execMode] }) :=
  chmodSync_eq host _ _ execMode s h

theorem chmodSync_ffprobe (host : Host) (p : String) (s : Sys)
    (h : (lookup s.fs (ffprobePath p)).isSome = true) :
    chmodSync host (ffprobePath p) execMode s =
      if host.chmodDenied (ffprobePath p) then
        (.throw "EPERM", { s with ops := s.ops ++ [.chmod (ffprobePath p) execMode] })
      else
        (.ok (), { fs := chmodFs s.fs (ffprobePath p) execMode, console := s.console,
                   ops := s.ops ++ [.chmod (ffprobePath p) execMode] }) :=
  chmodSync_eq host _ _ execMode s h

/-- When both binaries exist `verify` prints three lines, applies the
permission bits and returns. -/
theorem verify_found_eq (host : Host) (platform : String) (s : Sys)
    (ha : (lookup s.fs (ffmpegPath platform)).isSome = true)
    (hb : (lookup s.fs (ffprobePath platform)).isSome = true) :
    verify host platform s = (.ok (),
      { fs := verifiedFs host platform s.fs,
        console := s.console ++
          [⟨.log, "[FFmpeg Setup] Verifying binaries in "
              ++ showPath host (targetFolder platform) ++ "..."⟩,
           ⟨.log, "[FFmpeg Setup] ✅ SUCCESS: ffmpeg and ffprobe found."⟩,
           ⟨.log, "[FFmpeg Setup] These will work in the build version."⟩],
        ops := s.ops ++ verifiedOps host platform }) := by
  have hb' : (lookup (chmodFs s.fs (ffmpegPath platform) execMode)
      (ffprobePath platform)).isSome = true := by
    rw [ffmpegPath_eq, ffprobePath_eq, chmodFs_isSome_same_dir, ← ffprobePath_eq]
    exact hb
  cases hw : host.win32
  · cases hd1 : host.chmodDenied (ffmpegPath platform)
    · cases hd2 : host.chmodDenied (ffprobePath platform)
      · simp [verify, run_bind, existsSync_eq, print_eq, ha, hb, run_pure, hw, tryCatch,
          chmodSync_ffmpeg, chmodSync_ffprobe, hb', hd1, hd2, verifiedFs, verifiedOps]
      · simp [verify, run_bind, existsSync_eq, print_eq, ha, hb, run_pure, hw, tryCatch,
          chmodSync_ffmpeg, chmodSync_ffprobe, hb', hd1, hd2, verifiedFs, verifiedOps]
    · simp [verify, run_bind, existsSync_eq, print_eq, ha, hb, run_pure, hw, tryCatch,
        chmodSync_ffmpeg, hd1, verifiedFs, verifiedOps]
  · simp [verify, run_bind, existsSync_eq, print_eq, ha, hb, run_pure, hw, verifiedFs,
      verifiedOps]

/-! ### What `verify` leaves behind -/

theorem withMode_twice (m k : Nat) (n : Node) : (n.withMode m).withMode k = n.withMode k := by
  cases n <;> rfl

theorem map_withMode_twice (m k : Nat) (x : Option Node) :
    (x.map (Node.withMode m)).map (Node.withMode k) = x.map (Node.withMode k) := by
  cases x <;> simp [withMode_twice]

theorem verifiedFs_isSome (host : Host) (p : String) (fs : Dir) (c : String) :
    (lookup (verifiedFs host p fs) [targetName p, c]).isSome
      = (lookup fs [targetName p, c]).isSome := by
  unfold verifiedFs
  split
  · rfl
  · split
    · rfl
    · split <;> simp only [ffmpegPath_eq, ffprobePath_eq, chmodFs_isSome_same_dir]

theorem verifiedFs_find_other (host : Host) (p : String) (fs : Dir) (z : String)
    (hz : targetName p ≠ z) : (verifiedFs host p fs).find z = fs.find z := by
  unfold verifiedFs
  split
  · rfl
  · split
    · rfl
    · split <;> simp only [ffmpegPath_eq, ffprobePath_eq, chmodFs_find_other _ _ _ _ _ hz]

theorem verifiedFs_idem (host : Host) (p : String) (fs : Dir) :
    verifiedFs host p (verifiedFs host p fs) = verifiedFs host p fs := by
  have hne : "ffprobe" ++ exeExt p ≠ "ffmpeg" ++ exeExt p := fun h => ffmpeg_ne_ffprobe _ h.symm
  unfold verifiedFs
  cases host.win32
  · cases host.chmodDenied (ffmpegPath p)
    · cases host.chmodDenied (ffprobePath p)
      · simp only [Bool.false_eq_true, if_false, ffmpegPath_eq, ffprobePath_eq]
        have h1 : chmodFs (chmodFs (chmodFs fs [targetName p, "ffmpeg" ++ exeExt p] execMode)
            [targetName p, "ffprobe" ++ exeExt p] execMode)
            [targetName p, "ffmpeg" ++ exeExt p] execMode
            = chmodFs (chmodFs fs [targetName p, "ffmpeg" ++ exeExt p] execMode)
              [targetName p, "ffprobe" ++ exeExt p] execMode := by
          apply chmodFs_id
          rw [chmodFs_lookup_same_dir, if_neg hne, chmodFs_lookup_same_dir, if_pos rfl]
          exact map_withMode_twice _ _ _
        rw [h1]
        apply chmodFs_id
        rw [chmodFs_lookup_same_dir, if_pos rfl]
        exact map_withMode_twice _ _ _
      · simp only [Bool.false_eq_true, if_false, if_true, ffmpegPath_eq]
        apply chmodFs_id
        rw [chmodFs_lookup_same_dir, if_pos rfl]
        exact map_withMode_twice _ _ _
    · simp
  · simp

theorem blankModes_set (cs : Dir) (b : String) (n : Node) (m : Nat)
    (hb : Dir.find cs b = some n) : blankModes (Dir.set cs b (n.withMode m)) = blankModes cs := by
  induction cs with
  | nil => simp [Dir.find] at hb
  | cons e rest ih =>
    obtain ⟨j, x⟩ := e
    by_cases hj : j = b
    · simp [Dir.find, hj] at hb
      simp [Dir.set, hj, blankModes, hb, withMode_twice]
    · simp [Dir.find, hj] at hb
      have := ih hb
      simp [blankModes] at this
      simp [Dir.set, hj, blankModes, this]

theorem blankModes2_set (fs : Dir) (a : String) (cs cs' : Dir)
    (ha : fs.find a = some (.dir cs)) (hc : blankModes cs' = blankModes cs) :
    blankModes2 (fs.set a (.dir cs')) = blankModes2 fs := by
  induction fs with
  | nil => simp [Dir.find] at ha
  | cons e rest ih =>
    obtain ⟨j, x⟩ := e
    by_cases hj : j = a
    · simp [Dir.find, hj] at ha
      simp [Dir.set, hj, blankModes2, ha, hc]
    · simp [Dir.find, hj] at ha
      have := ih ha
      simp [blankModes2] at this
      simp [Dir.set, hj, blankModes2, this]

theorem blankModes2_chmodFs (fs : Dir) (a b : String) (m : Nat) :
    blankModes2 (chmodFs fs [a, b] m) = blankModes2 fs := by
  cases ha : fs.find a with
  | none => simp [chmodFs, lookup_two, ha]
  | some x =>
    cases x with
    | file _ _ => simp [chmodFs, lookup_two, ha]
    | dir cs =>
      rw [chmodFs_two fs a b m cs ha]
      apply blankModes2_set fs a cs _ ha
      cases hb : Dir.find cs b with
      | none => rfl
      | some n => exact blankModes_set cs b n m hb

theorem blankModes2_verifiedFs (host : Host) (p : String) (fs : Dir) :
    blankModes2 (verifiedFs host p fs) = blankModes2 fs := by
  unfold verifiedFs
  split
  · rfl
  · split
    · rfl
    · split <;> simp only [ffmpegPath_eq, ffprobePath_eq, blankModes2_chmodFs]

theorem verifiedOps_chmod (host : Host) (p : String) :
    ∀ op ∈ verifiedOps host p, ∃ q m, op = FsOp.chmod q m := by
  intro op hop
  unfold verifiedOps at hop
  split at hop
  · simp at hop
  · split at hop
    · simp at hop; exact ⟨_, _, hop⟩
    · simp at hop
      rcases hop with h | h <;> exact ⟨_, _, h⟩

/-! ### C8: what `verify` reports -/

theorem string_append_left_cancel {a x y : String} (h : a ++ x = a ++ y) : x = y := by
  have hd := congrArg String.data h
  simp only [String.data_append] at hd
  exact String.ext (List.append_cancel_left hd)

theorem showPath_two (host : Host) (t x : String) :
    showPath host [t, x] = host.ffmpegRoot ++ "/" ++ t ++ "/" ++ x := rfl

theorem missingLine_ne (host : Host) (p : String) :
    missingLine host (ffmpegPath p) ≠ missingLine host (ffprobePath p) := by
  intro h
  simp only [missingLine, ffmpegPath_eq, ffprobePath_eq, showPath_two, LogLine.mk.injEq,
    true_and] at h
  exact ffmpeg_ne_ffprobe _ (string_append_left_cancel (string_append_left_cancel h))

theorem missingLine_ne_header (host : Host) (q : Path) :
    missingLine host q ≠ ⟨.error, "[FFmpeg Setup] ❌ ERROR: Binaries missing!"⟩ := by
  intro h
  simp only [missingLine, LogLine.mk.injEq, true_and] at h
  have hd := congrArg String.data h
  simp at hd

theorem printed_append (s : Sys) (fs : Dir) (ops : List FsOp) (ls : List LogLine) :
    printed s { fs := fs, console := s.console ++ ls, ops := ops } = ls := by
  simp [printed]

/-- C8. Verification succeeds exactly when both expected paths exist. When it
does not succeed it ends the process with exit status 1 without touching the
files, and what it prints is the two header lines followed by one `Missing`
line per expected path that does not exist: the ffmpeg path is reported iff it
is absent, the ffprobe path is reported iff it is absent, so one or two paths
are reported. -/
theorem verify_reports_exactly_missing (host : Host) (platform : String) (s : Sys) :
    ((verify host platform s).1 = Res.ok () ↔
      (lookup s.fs (ffmpegPath platform)).isSome = true ∧
      (lookup s.fs (ffprobePath platform)).isSome = true) ∧
    ((verify host platform s).1 ≠ Res.ok () →
      (verify host platform s).1 = Res.exit 1 ∧
      (verify host platform s).2.fs = s.fs ∧
      printed s (verify host platform s).2
        = [⟨.log, "[FFmpeg Setup] Verifying binaries in "
              ++ showPath host (targetFolder platform) ++ "..."⟩,
           ⟨.error, "[FFmpeg Setup] ❌ ERROR: Binaries missing!"⟩]
          ++ ([ffmpegPath platform, ffprobePath platform].filter
                (fun p => !(lookup s.fs p).isSome)).map (missingLine host) ∧
      (missingLine host (ffmpegPath platform) ∈ printed s (verify host platform s).2
        ↔ (lookup s.fs (ffmpegPath platform)).isSome = false) ∧
      (missingLine host (ffprobePath platform) ∈ printed s (verify host platform s).2
        ↔ (lookup s.fs (ffprobePath platform)).isSome = false) ∧
      reportedMissing host platform (printed s (verify host platform s).2)
        = [ffmpegPath platform, ffprobePath platform].filter
            (fun p => !(lookup s.fs p).isSome) ∧
      1 ≤ (reportedMissing host platform (printed s (verify host platform s).2)).length ∧
      (reportedMissing host platform (printed s (verify host platform s).2)).length ≤ 2) := by
  have hne := missingLine_ne host platform
  have hh1 := missingLine_ne_header host (ffmpegPath platform)
  have hh2 := missingLine_ne_header host (ffprobePath platform)
  have hv1 : missingLine host (ffmpegPath platform) ≠
      ⟨.log, "[FFmpeg Setup] Verifying binaries in "
        ++ showPath host (targetFolder platform) ++ "..."⟩ := by
    simp [missingLine]
  have hv2 : missingLine host (ffprobePath platform) ≠
      ⟨.log, "[FFmpeg Setup] Verifying binaries in "
        ++ showPath host (targetFolder platform) ++ "..."⟩ := by
    simp [missingLine]
  cases ha : (lookup s.fs (ffmpegPath platform)).isSome <;>
    cases hb : (lookup s.fs (ffprobePath platform)).isSome
  case true.true =>
    rw [verify_found_eq host platform s ha hb]
    simp
  all_goals
    rw [verify_missing_eq host platform s (by simp [ha, hb])]
    simp only [printed_append]
    simp [reportedMissing, List.filter, ha, hb, hne, hne.symm, hh1, hh2, hv1, hv2]

/-! ### C5: the flatten pass on a flat directory -/

theorem readdirSync_dir (p : Path) (s : Sys) (es : Dir) (h : lookup s.fs p = some (.dir es)) :
    readdirSync p s = (.ok (Dir.names es), s) := by
  simp [readdirSync, run_bind, getFs, h, run_pure]

theorem targetFolder_eq (p : String) : targetFolder p = [targetName p] := rfl

/-- C5. On a target directory that is already flat (no entries, more than
one entry, or a single entry that is a file) the flatten pass returns at once
and leaves the whole system as it was: nothing is moved or removed (no file
system call is issued), the files are unchanged, and nothing is printed. -/
theorem flatten_flat_noop (platform : String) (s : Sys) (es : Dir)
    (ht : lookup s.fs (targetFolder platform) = some (.dir es))
    (hflat : es = [] ∨ 1 < es.length ∨ ∃ name mode data, es = [(name, Node.file mode data)]) :
    flatten platform s = (.ok (), s) := by
  rcases hflat with h | h | ⟨name, mode, data, h⟩
  · subst h
    simp [flatten, run_bind, readdirSync_dir _ _ _ ht, Dir.names, run_pure]
  · match es, h with
    | e1 :: e2 :: rest, _ =>
      simp [flatten, run_bind, readdirSync_dir _ _ _ ht, Dir.names, run_pure]
  · subst h
    have hl : lookup s.fs (targetFolder platform ++ [name]) = some (.file mode data) := by
      rw [targetFolder_eq] at ht ⊢
      rw [lookup_one] at ht
      show lookup s.fs [targetName platform, name] = _
      rw [lookup_two, ht]
      simp [Dir.find]
    simp [flatten, run_bind, readdirSync_dir _ _ _ ht, Dir.names, run_pure, statIsDirectory,
      getFs, hl, Node.isDirectory]

/-! ### C7: provisioning without an archive -/

/-- Without an archive `setup` prints its two lines and hands over to
`verify`. -/
theorem setup_no_archive (host : Host) (platform : String) (s : Sys)
    (hz : lookup s.fs (zipPath platform) = none) :
    setup host platform s = verify host platform
      { s with console := s.console ++
          [⟨.log, "[FFmpeg Setup] Processing " ++ platform ++ "..."⟩,
           ⟨.warn, "[FFmpeg Setup] Archive " ++ zipName platform ++ " not found in "
              ++ host.ffmpegRoot ++ ". Skipping extraction."⟩] } := by
  simp [setup, run_bind, print_eq, existsSync_eq, hz]

theorem script_eq (host : Host) (platform : String) (hp : platform ≠ "") :
    script host (some platform)
      = tryCatch (setup host platform) (fun err => do
          print .error err
          processExit 1) := by
  simp [script, hp]

theorem provision_no_archive (host : Host) (platform : String) (fs : Dir)
    (hp : platform ≠ "") (hz : lookup fs (zipPath platform) = none) :
    provision host platform fs =
      (exitStatus (verify host platform
          { fs := fs, console :=
              [⟨.log, "[FFmpeg Setup] Processing " ++ platform ++ "..."⟩,
               ⟨.warn, "[FFmpeg Setup] Archive " ++ zipName platform ++ " not found in "
                  ++ host.ffmpegRoot ++ ". Skipping extraction."⟩],
            ops := [] }).1,
       (verify host platform
          { fs := fs, console :=
              [⟨.log, "[FFmpeg Setup] Processing " ++ platform ++ "..."⟩,
               ⟨.warn, "[FFmpeg Setup] Archive " ++ zipName platform ++ " not found in "
                  ++ host.ffmpegRoot ++ ". Skipping extraction."⟩],
            ops := [] }).2) := by
  unfold provision
  rw [script_eq host platform hp]
  simp only [tryCatch]
  rw [setup_no_archive host platform _ hz]
  simp only [List.nil_append]
  cases ha : (lookup fs (ffmpegPath platform)).isSome <;>
    cases hb : (lookup fs (ffprobePath platform)).isSome
  case true.true =>
    rw [verify_found_eq host platform _ ha hb]
  all_goals
    rw [verify_missing_eq host platform _ (by simp [ha, hb])]

/-- C7. For every non-empty platform tag (so for win, mac and linux) and every
file system without the archive, provisioning goes straight to verification:
it prints its two lines and runs `verify`; the only file system calls it
issues are `chmod`s, so nothing is removed, created, extracted or moved, and
the files are unchanged up to permission bits; the exit status is 0 when both
expected binaries exist and 1 otherwise, and on status 1 the files are
exactly as before. -/
theorem no_archive_goes_to_verify (host : Host) (platform : String) (fs : Dir)
    (hp : platform ≠ "") (hz : lookup fs (zipPath platform) = none) :
    provision host platform fs =
      (exitStatus (verify host platform
          { fs := fs, console :=
              [⟨.log, "[FFmpeg Setup] Processing " ++ platform ++ "..."⟩,
               ⟨.warn, "[FFmpeg Setup] Archive " ++ zipName platform ++ " not found in "
                  ++ host.ffmpegRoot ++ ". Skipping extraction."⟩],
            ops := [] }).1,
       (verify host platform
          { fs := fs, console :=
              [⟨.log, "[FFmpeg Setup] Processing " ++ platform ++ "..."⟩,
               ⟨.warn, "[FFmpeg Setup] Archive " ++ zipName platform ++ " not found in "
                  ++ host.ffmpegRoot ++ ". Skipping extraction."⟩],
            ops := [] }).2) ∧
    (∀ op ∈ (provision host platform fs).2.ops, ∃ q m, op = FsOp.chmod q m) ∧
    blankModes2 (provision host platform fs).2.fs = blankModes2 fs ∧
    (provision host platform fs).1
      = (if (lookup fs (ffmpegPath platform)).isSome = true
            ∧ (lookup fs (ffprobePath platform)).isSome = true then 0 else 1) ∧
    ((provision host platform fs).1 = 1 →
      (provision host platform fs).2.fs = fs ∧ (provision host platform fs).2.ops = []) := by
  refine ⟨provision_no_archive host platform fs hp hz, ?_⟩
  rw [provision_no_archive host platform fs hp hz]
  cases ha : (lookup fs (ffmpegPath platform)).isSome <;>
    cases hb : (lookup fs (ffprobePath platform)).isSome
  case true.true =>
    rw [verify_found_eq host platform _ ha hb]
    refine ⟨?_, ?_, ?_, ?_⟩
    · simpa using verifiedOps_chmod host platform
    · exact blankModes2_verifiedFs host platform fs
    · simp [exitStatus]
    · simp [exitStatus]
  all_goals
    rw [verify_missing_eq host platform _ (by simp [ha, hb])]
    simp [exitStatus]

/-! ### How pieces of the script can end -/

theorem neverExits_exitsWithOne {α : Type} {m : Run α} (h : NeverExits m) : ExitsWithOne m :=
  fun s c t hm => absurd hm (h s c t)

theorem exitsWithOne_bind {α β : Type} {m : Run α} {f : α → Run β}
    (hm : ExitsWithOne m) (hf : ∀ a, ExitsWithOne (f a)) : ExitsWithOne (m >>= f) := by
  intro s c t h
  rw [run_bind] at h
  cases hr : m s with
  | mk r s' =>
    rw [hr] at h
    cases r with
    | ok a => exact hf a s' c t h
    | throw e => simp at h
    | exit c' =>
      simp only [Prod.mk.injEq, Res.exit.injEq] at h
      rw [← h.1]
      exact hm s c' s' hr

theorem neverExits_bind {α β : Type} {m : Run α} {f : α → Run β}
    (hm : NeverExits m) (hf : ∀ a, NeverExits (f a)) : NeverExits (m >>= f) := by
  intro s c t h
  rw [run_bind] at h
  cases hr : m s with
  | mk r s' =>
    rw [hr] at h
    cases r with
    | ok a => exact hf a s' c t h
    | throw e => simp at h
    | exit c' => exact hm s c' s' hr

theorem exitsWithOne_tryCatch {α : Type} {m : Run α} {f : String → Run α}
    (hm : ExitsWithOne m) (hf : ∀ e, ExitsWithOne (f e)) : ExitsWithOne (tryCatch m f) := by
  intro s c t h
  unfold FfmpegSetup.tryCatch at h
  cases hr : m s with
  | mk r s' =>
    rw [hr] at h
    cases r with
    | ok a => simp at h
    | throw e => exact hf e s' c t h
    | exit c' =>
      simp only [Prod.mk.injEq, Res.exit.injEq] at h
      rw [← h.1]
      exact hm s c' s' hr

theorem neverExits_pure {α : Type} (a : α) : NeverExits (pure a : Run α) := by
  intro s c t h
  simp [run_pure] at h

theorem neverExits_print (l : Level) (x : String) : NeverExits (print l x) := by
  intro s c t h
  simp [print_eq] at h

theorem neverExits_throwErr {α : Type} (e : String) : NeverExits (throwErr e : Run α) := by
  intro s c t h
  simp [throwErr] at h

theorem neverExits_record (op : FsOp) : NeverExits (record op) := by
  intro s c t h
  simp [record] at h

theorem neverExits_getFs : NeverExits getFs := by
  intro s c t h
  simp [getFs] at h

theorem neverExits_putFs (fs : Dir) : NeverExits (putFs fs) := by
  intro s c t h
  simp [putFs] at h

theorem neverExits_existsSync (p : Path) : NeverExits (existsSync p) := by
  intro s c t h
  simp [existsSync_eq] at h

theorem neverExits_rmSync (p : Path) : NeverExits (rmSync p) := by
  unfold rmSync
  refine neverExits_bind (neverExits_record _) fun _ => neverExits_bind neverExits_getFs fun fs => ?_
  split
  · exact neverExits_pure _
  · split
    · exact neverExits_putFs _
    · exact neverExits_throwErr _

theorem neverExits_mkdirSync (p : Path) : NeverExits (mkdirSync p) := by
  unfold mkdirSync
  refine neverExits_bind (neverExits_record _) fun _ => neverExits_bind neverExits_getFs fun fs => ?_
  split
  · exact neverExits_putFs _
  · exact neverExits_throwErr _

theorem neverExits_execExtract (host : Host) (z t : Path) : NeverExits (execExtract host z t) := by
  unfold execExtract
  refine neverExits_bind (neverExits_record _) fun _ => neverExits_bind neverExits_getFs fun fs => ?_
  split
  · split
    · exact neverExits_throwErr _
    · refine neverExits_bind (neverExits_putFs _) fun _ => ?_
      split
      · exact neverExits_pure _
      · exact neverExits_throwErr _
  · exact neverExits_throwErr _

theorem neverExits_readdirSync (p : Path) : NeverExits (readdirSync p) := by
  unfold readdirSync
  refine neverExits_bind neverExits_getFs fun fs => ?_
  split
  · exact neverExits_pure _
  · exact neverExits_throwErr _
  · exact neverExits_throwErr _

theorem neverExits_statIsDirectory (p : Path) : NeverExits (statIsDirectory p) := by
  unfold statIsDirectory
  refine neverExits_bind neverExits_getFs fun fs => ?_
  split
  · exact neverExits_pure _
  · exact neverExits_throwErr _

theorem neverExits_renameSync (a b : Path) : NeverExits (renameSync a b) := by
  unfold renameSync
  refine neverExits_bind (neverExits_record _) fun _ => neverExits_bind neverExits_getFs fun fs => ?_
  split
  · exact neverExits_throwErr _
  · split
    · exact neverExits_throwErr _
    · split
      · exact neverExits_throwErr _
      · split
        · exact neverExits_throwErr _
        · exact neverExits_putFs _

theorem neverExits_rmdirSync (p : Path) : NeverExits (rmdirSync p) := by
  unfold rmdirSync
  refine neverExits_bind (neverExits_record _) fun _ => neverExits_bind neverExits_getFs fun fs => ?_
  split
  · exact neverExits_throwErr _
  · exact neverExits_throwErr _
  · exact neverExits_throwErr _
  · split
    · exact neverExits_putFs _
    · exact neverExits_throwErr _

theorem neverExits_unlinkSync (p : Path) : NeverExits (unlinkSync p) := by
  unfold unlinkSync
  refine neverExits_bind (neverExits_record _) fun _ => neverExits_bind neverExits_getFs fun fs => ?_
  split
  · exact neverExits_throwErr _
  · exact neverExits_throwErr _
  · split
    · exact neverExits_putFs _
    · exact neverExits_throwErr _

theorem neverExits_moveUp (a b : Path) (names : List String) : NeverExits (moveUp a b names) := by
  induction names with
  | nil => exact neverExits_pure _
  | cons n rest ih =>
    unfold moveUp
    exact neverExits_bind (neverExits_renameSync _ _) fun _ => ih

theorem neverExits_flatten (platform : String) : NeverExits (flatten platform) := by
  unfold flatten
  refine neverExits_bind (neverExits_readdirSync _) fun contents => ?_
  split
  · refine neverExits_bind (neverExits_statIsDirectory _) fun isDir => ?_
    split
    · refine neverExits_bind (neverExits_print _ _) fun _ => ?_
      refine neverExits_bind (neverExits_readdirSync _) fun _ => ?_
      exact neverExits_bind (neverExits_moveUp _ _ _) fun _ => neverExits_rmdirSync _
    · exact neverExits_pure _
  · exact neverExits_pure _

theorem exitsWithOne_processExit {α : Type} : ExitsWithOne (processExit 1 : Run α) := by
  intro s c t h
  simp only [processExit, Prod.mk.injEq, Res.exit.injEq] at h
  exact h.1.symm

theorem exitsWithOne_verify (host : Host) (platform : String) :
    ExitsWithOne (verify host platform) := by
  intro s c t h
  cases ha : (lookup s.fs (ffmpegPath platform)).isSome <;>
    cases hb : (lookup s.fs (ffprobePath platform)).isSome
  case true.true =>
    rw [verify_found_eq host platform s ha hb] at h
    simp at h
  all_goals
    rw [verify_missing_eq host platform s (by simp [ha, hb])] at h
    simp only [Prod.mk.injEq, Res.exit.injEq] at h
    exact h.1.symm

theorem exitsWithOne_unpack (host : Host) (platform : String) :
    ExitsWithOne (unpack host platform) := by
  unfold unpack
  refine exitsWithOne_bind (neverExits_exitsWithOne (neverExits_existsSync _)) fun te => ?_
  refine exitsWithOne_bind ?_ fun _ => ?_
  · split
    · exact (neverExits_exitsWithOne (neverExits_rmSync _))
    · exact (neverExits_exitsWithOne (neverExits_pure _))
  refine exitsWithOne_bind (neverExits_exitsWithOne (neverExits_mkdirSync _)) fun _ => ?_
  refine exitsWithOne_bind (neverExits_exitsWithOne (neverExits_print _ _)) fun _ => ?_
  refine exitsWithOne_bind ?_ fun _ => ?_
  · exact exitsWithOne_tryCatch (neverExits_exitsWithOne (neverExits_execExtract _ _ _)) fun e =>
      exitsWithOne_bind (neverExits_exitsWithOne (neverExits_print _ _)) fun _ => exitsWithOne_processExit
  refine exitsWithOne_bind (neverExits_exitsWithOne (neverExits_flatten _)) fun _ => ?_
  refine exitsWithOne_bind (neverExits_exitsWithOne (neverExits_print _ _)) fun _ => ?_
  exact exitsWithOne_bind (neverExits_exitsWithOne (neverExits_unlinkSync _)) fun _ =>
    exitsWithOne_verify host platform

theorem exitsWithOne_setup (host : Host) (platform : String) :
    ExitsWithOne (setup host platform) := by
  unfold setup
  refine exitsWithOne_bind (neverExits_exitsWithOne (neverExits_print _ _)) fun _ => ?_
  refine exitsWithOne_bind (neverExits_exitsWithOne (neverExits_existsSync _)) fun ze => ?_
  split
  · exact exitsWithOne_bind (neverExits_exitsWithOne (neverExits_print _ _)) fun _ =>
      exitsWithOne_verify host platform
  · exact exitsWithOne_unpack host platform

/-! ### What a run that returns normally has established -/

theorem ensures_bind {α β : Type} {P : Sys → Prop} {m : Run α} {R : α → Sys → Prop}
    {f : α → Run β} {Q : β → Sys → Prop}
    (hm : Ensures P m R) (hf : ∀ a, Ensures (R a) (f a) Q) : Ensures P (m >>= f) Q := by
  intro s b t hP h
  rw [run_bind] at h
  cases hr : m s with
  | mk r s' =>
    rw [hr] at h
    cases r with
    | ok a => exact hf a s' b t (hm s a s' hP hr) h
    | throw e => simp at h
    | exit c => simp at h

theorem ensures_true {α : Type} (P : Sys → Prop) (m : Run α) :
    Ensures P m (fun _ _ => True) := fun _ _ _ _ _ => trivial

theorem ensures_unlinkSync (z : String) :
    Ensures (fun _ => True) (unlinkSync [z]) (fun _ t => lookup t.fs [z] = none) := by
  intro s a t _ h
  cases hl : lookup s.fs [z] with
  | none => simp [unlinkSync, run_bind, record, getFs, hl, throwErr] at h
  | some n =>
    cases n with
    | dir es => simp [unlinkSync, run_bind, record, getFs, hl, throwErr] at h
    | file m d =>
      simp [unlinkSync, run_bind, record, getFs, hl, store, putFs] at h
      rw [← h, lookup_one]
      exact find_remove_same _ _

theorem provisioned_verifiedFs (host : Host) (p : String) (fs : Dir)
    (hz : lookup fs (zipPath p) = none)
    (ha : (lookup fs (ffmpegPath p)).isSome = true)
    (hb : (lookup fs (ffprobePath p)).isSome = true) :
    Provisioned host p (verifiedFs host p fs) := by
  refine ⟨?_, ?_, ?_, verifiedFs_idem host p fs⟩
  · show lookup _ [zipName p] = none
    rw [lookup_one, verifiedFs_find_other host p fs _ (fun h => zipName_ne_targetName p h.symm),
      ← lookup_one]
    exact hz
  · rw [ffmpegPath_eq, verifiedFs_isSome, ← ffmpegPath_eq]; exact ha
  · rw [ffprobePath_eq, verifiedFs_isSome, ← ffprobePath_eq]; exact hb

theorem ensures_verify (host : Host) (p : String) :
    Ensures (fun s => lookup s.fs (zipPath p) = none) (verify host p)
      (fun _ t => Provisioned host p t.fs) := by
  intro s a t hz h
  cases ha : (lookup s.fs (ffmpegPath p)).isSome <;>
    cases hb : (lookup s.fs (ffprobePath p)).isSome
  case true.true =>
    rw [verify_found_eq host p s ha hb] at h
    simp only [Prod.mk.injEq, true_and] at h
    rw [← h]
    exact provisioned_verifiedFs host p s.fs hz ha hb
  all_goals
    rw [verify_missing_eq host p s (by simp [ha, hb])] at h
    simp at h

theorem ensures_unpack (host : Host) (p : String) :
    Ensures (fun _ => True) (unpack host p) (fun _ t => Provisioned host p t.fs) := by
  unfold unpack
  refine ensures_bind (ensures_true _ _) fun _ => ?_
  refine ensures_bind (ensures_true _ _) fun _ => ?_
  refine ensures_bind (ensures_true _ _) fun _ => ?_
  refine ensures_bind (ensures_true _ _) fun _ => ?_
  refine ensures_bind (ensures_true _ _) fun _ => ?_
  refine ensures_bind (ensures_true _ _) fun _ => ?_
  refine ensures_bind (ensures_true _ _) fun _ => ?_
  exact ensures_bind (fun s a t _ h => ensures_unlinkSync (zipName p) s a t trivial h)
    fun _ => ensures_verify host p

theorem setup_archive (host : Host) (p : String) (s : Sys)
    (hz : (lookup s.fs (zipPath p)).isSome = true) :
    setup host p s = unpack host p
      { s with console := s.console ++ [⟨.log, "[FFmpeg Setup] Processing " ++ p ++ "..."⟩] } := by
  simp [setup, run_bind, print_eq, existsSync_eq, hz]

theorem ensures_setup (host : Host) (p : String) :
    Ensures (fun _ => True) (setup host p) (fun _ t => Provisioned host p t.fs) := by
  intro s a t _ h
  cases hz : lookup s.fs (zipPath p) with
  | none =>
    rw [setup_no_archive host p s hz] at h
    exact ensures_verify host p _ a t (by exact hz) h
  | some n =>
    rw [setup_archive host p s (by simp [hz])] at h
    exact ensures_unpack host p _ a t trivial h

/-- A run that ends with exit status 0 is a run in which `setup` returned. -/
theorem provision_zero (host : Host) (p : String) (fs : Dir)
    (h0 : (provision host p fs).1 = 0) :
    p ≠ "" ∧ setup host p { fs := fs, console := [], ops := [] }
      = (.ok (), (provision host p fs).2) := by
  by_cases hp : p = ""
  · subst hp
    simp [provision, script, run_bind, print_eq, processExit, exitStatus] at h0
  · refine ⟨hp, ?_⟩
    unfold provision at h0 ⊢
    rw [script_eq host p hp] at h0 ⊢
    simp only [tryCatch] at h0 ⊢
    cases hr : setup host p { fs := fs, console := [], ops := [] } with
    | mk r t =>
      simp only [hr] at h0 ⊢
      cases r with
      | ok a => rfl
      | throw e => simp [run_bind, print_eq, processExit, exitStatus] at h0
      | exit c =>
        have := exitsWithOne_setup host p _ c t hr
        subst this
        simp [exitStatus] at h0

theorem provision_zero_provisioned (host : Host) (p : String) (fs : Dir)
    (h0 : (provision host p fs).1 = 0) : Provisioned host p (provision host p fs).2.fs := by
  obtain ⟨_, hs⟩ := provision_zero host p fs h0
  exact ensures_setup host p _ () _ trivial hs

/-! ### The flatten pass on a wrapped payload without a name clash -/

theorem find_of_not_mem (es : Dir) (k : String) (h : k ∉ Dir.names es) : es.find k = none := by
  induction es with
  | nil => rfl
  | cons e rest ih =>
    obtain ⟨j, x⟩ := e
    simp only [Dir.names, List.map_cons, List.mem_cons, not_or] at h
    have hr : k ∉ Dir.names rest := h.2
    have hjk : ¬ j = k := fun hj => h.1 hj.symm
    simp [Dir.find, hjk, ih hr]

theorem remove_of_not_mem (es : Dir) (k : String) (h : k ∉ Dir.names es) : es.remove k = es := by
  induction es with
  | nil => rfl
  | cons e rest ih =>
    obtain ⟨j, x⟩ := e
    simp only [Dir.names, List.map_cons, List.mem_cons, not_or] at h
    have hr : k ∉ Dir.names rest := h.2
    have hjk : ¬ j = k := fun hj => h.1 hj.symm
    simp [Dir.remove, hjk, ih hr]

theorem set_of_not_mem (es : Dir) (k : String) (n : Node) (h : k ∉ Dir.names es) :
    es.set k n = es ++ [(k, n)] := by
  induction es with
  | nil => rfl
  | cons e rest ih =>
    obtain ⟨j, x⟩ := e
    simp only [Dir.names, List.map_cons, List.mem_cons, not_or] at h
    have hr : k ∉ Dir.names rest := h.2
    have hjk : ¬ j = k := fun hj => h.1 hj.symm
    simp [Dir.set, hjk, ih hr]

theorem lookup_three (fs : Dir) (a b c : String) :
    lookup fs [a, b, c] = match fs.find a with
      | some (.dir cs) => lookup cs [b, c]
      | _ => none := by
  conv_lhs => unfold lookup
  cases h : fs.find a with
  | none => rfl
  | some n => cases n <;> simp

theorem store_three (fs : Dir) (a b c : String) (v : Option Node) :
    store fs [a, b, c] v = match fs.find a with
      | some (.dir cs) => (store cs [b, c] v).map (fun cs' => fs.set a (.dir cs'))
      | _ => none := by
  conv_lhs => unfold store

/-- One move of the `forEach`: the first entry of the wrapper goes to the end
of the target directory. -/
theorem renameSync_up (s : Sys) (t d f : String) (x : Node) (rest moved : Dir)
    (ht : s.fs.find t = some (.dir ((d, .dir ((f, x) :: rest)) :: moved)))
    (hfd : f ≠ d) (hfr : f ∉ Dir.names rest) (hfm : f ∉ Dir.names moved) :
    renameSync ([t, d] ++ [f]) ([t] ++ [f]) s = (.ok (),
      { fs := s.fs.set t (.dir ((d, .dir rest) :: (moved ++ [(f, x)]))),
        console := s.console,
        ops := s.ops ++ [.rename [t, d, f] [t, f]] }) := by
  have hdf : ¬ d = f := fun h => hfd h.symm
  have hsrc : lookup s.fs [t, d, f] = some x := by
    rw [lookup_three, ht]; simp [lookup_two, Dir.find]
  have hdst : lookup s.fs [t, f] = none := by
    rw [lookup_two, ht]
    simp [Dir.find, hdf, find_of_not_mem moved f hfm]
  have hst1 : store s.fs [t, d, f] none
      = some (s.fs.set t (.dir ((d, .dir rest) :: moved))) := by
    rw [store_three, ht]
    simp [store_two, Dir.find, Dir.set, Dir.remove, remove_of_not_mem rest f hfr]
  have hst2 : store (s.fs.set t (.dir ((d, .dir rest) :: moved))) [t, f] (some x)
      = some (s.fs.set t (.dir ((d, .dir rest) :: (moved ++ [(f, x)])))) := by
    rw [store_two, find_set_same]
    simp [Dir.set, hdf, set_of_not_mem moved f x hfm, set_set]
  simp [renameSync, run_bind, record, getFs, hsrc, clashError, hdst, hst1, hst2, putFs]

/-- The `forEach` as a whole, when no entry of the wrapper bears the wrapper's
own name: every entry ends up in the target directory, in order, behind those
already there, and the wrapper is empty. -/
theorem moveUp_all (t d : String) (rest : Dir) :
    ∀ (s : Sys) (moved : Dir),
      s.fs.find t = some (.dir ((d, .dir rest) :: moved)) →
      (Dir.names rest).Nodup → d ∉ Dir.names rest →
      (∀ f ∈ Dir.names rest, f ∉ Dir.names moved) →
      moveUp [t, d] [t] (Dir.names rest) s = (.ok (),
        { fs := s.fs.set t (.dir ((d, .dir []) :: (moved ++ rest))),
          console := s.console,
          ops := s.ops ++ rest.map (fun e => FsOp.rename [t, d, e.1] [t, e.1]) }) := by
  induction rest with
  | nil =>
    intro s moved ht _ _ _
    simp [Dir.names, moveUp, run_pure, set_of_find _ _ _ ht]
  | cons e rest ih =>
    obtain ⟨f, x⟩ := e
    intro s moved ht hnd hd hdis
    simp only [Dir.names, List.map_cons, List.nodup_cons, List.mem_cons, not_or] at hnd hd hdis
    have hfr : f ∉ Dir.names rest := hnd.1
    have hfd : f ≠ d := fun h => hd.1 h.symm
    have hfm : f ∉ Dir.names moved := hdis f (Or.inl rfl)
    have hstep := renameSync_up s t d f x rest moved ht hfd hfr hfm
    have hnext := ih
      { fs := s.fs.set t (.dir ((d, .dir rest) :: (moved ++ [(f, x)]))),
        console := s.console, ops := s.ops ++ [.rename [t, d, f] [t, f]] }
      (moved ++ [(f, x)]) (find_set_same _ _ _) hnd.2 hd.2
      (by
        intro g hg hgm
        simp only [Dir.names, List.map_append, List.map_cons, List.map_nil, List.mem_append,
          List.mem_singleton] at hgm
        rcases hgm with hgm | hgm
        · exact hdis g (Or.inr hg) hgm
        · exact hfr (hgm ▸ hg))
    simp only [Dir.names, List.map_cons, moveUp, run_bind, hstep]
    simp only [Dir.names] at hnext
    rw [hnext]
    simp [set_set]

/-- The flatten pass on a target directory whose only entry is a directory
`d` with entries `es`, when the names in `es` are distinct and none of them is
`d`: every entry is moved up, the wrapper is removed, and the target directory
holds exactly `es`. -/
theorem flatten_unwraps (platform : String) (s : Sys) (d : String) (es : Dir)
    (ht : lookup s.fs (targetFolder platform) = some (.dir [(d, .dir es)]))
    (hnd : (Dir.names es).Nodup) (hd : d ∉ Dir.names es) :
    flatten platform s = (.ok (),
      { fs := s.fs.set (targetName platform) (.dir es),
        console := s.console ++
          [⟨.log, "[FFmpeg Setup] Detected nested directory " ++ d ++ ", flattening..."⟩],
        ops := s.ops
          ++ es.map (fun e => FsOp.rename [targetName platform, d, e.1] [targetName platform, e.1])
          ++ [.rmdir [targetName platform, d]] }) := by
  have hf : s.fs.find (targetName platform) = some (.dir [(d, .dir es)]) := by
    rw [targetFolder_eq, lookup_one] at ht; exact ht
  have hl : lookup s.fs (targetFolder platform ++ [d]) = some (.dir es) := by
    show lookup s.fs [targetName platform, d] = _
    rw [lookup_two, hf]; simp [Dir.find]
  have hmove := moveUp_all (targetName platform) d es
    { s with console := s.console ++
        [⟨.log, "[FFmpeg Setup] Detected nested directory " ++ d ++ ", flattening..."⟩] }
    [] hf hnd hd (by intro f _ hm; simp [Dir.names] at hm)
  have hrm : ∀ (c : List LogLine) (o : List FsOp),
      rmdirSync [targetName platform, d]
        { fs := s.fs.set (targetName platform) (.dir ((d, .dir []) :: es)),
          console := c, ops := o }
      = (.ok (), { fs := s.fs.set (targetName platform) (.dir es), console := c,
                   ops := o ++ [.rmdir [targetName platform, d]] }) := by
    intro c o
    have h1 : lookup (s.fs.set (targetName platform) (.dir ((d, .dir []) :: es)))
        [targetName platform, d] = some (.dir []) := by
      rw [lookup_two, find_set_same]; simp [Dir.find]
    have h2 : store (s.fs.set (targetName platform) (.dir ((d, .dir []) :: es)))
        [targetName platform, d] none = some (s.fs.set (targetName platform) (.dir es)) := by
      rw [store_two, find_set_same]
      simp [Dir.remove, remove_of_not_mem es d hd, set_set]
    simp [rmdirSync, run_bind, record, getFs, h1, h2, putFs]
  simp only [flatten, run_bind, readdirSync_dir _ _ _ ht, Dir.names, List.map_cons, List.map_nil,
    statIsDirectory, getFs, hl, run_pure, Node.isDirectory, if_true, print_eq,
    readdirSync_dir _ _ _ (show lookup (Sys.mk s.fs _ s.ops).fs _ = _ from hl)]
  have hrd := readdirSync_dir [targetName platform, d]
    { s with console := s.console ++
        [⟨.log, "[FFmpeg Setup] Detected nested directory " ++ d ++ ", flattening..."⟩] }
    es hl
  simp only [List.nil_append] at hmove
  simp only [targetFolder_eq, List.singleton_append, List.cons_append, List.nil_append]
  rw [hrd]
  simp only [hmove, hrm]

/-! ### The claims about provisioning -/

/-- C4, failing input. The target directory for `linux` holds one entry, the
directory `ffmpeg`, which holds the files `ffmpeg` and `ffprobe`. The flatten
pass does not complete: moving `ffmpeg/ffmpeg` up to `ffmpeg` hits the wrapping
directory itself, `renameSync` throws, nothing has been moved and the wrapping
directory is still there; the whole run ends with exit status 1 and the
archive still in place. -/
theorem flatten_throws_on_name_clash :
    lookup wrappedExtracted.fs (targetFolder "linux")
      = some (.dir [("ffmpeg", .dir [("ffmpeg", binary), ("ffprobe", binary)])]) ∧
    (flatten "linux" wrappedExtracted).1 = Res.throw "ENOTEMPTY" ∧
    (flatten "linux" wrappedExtracted).2.fs = wrappedExtracted.fs ∧
    (provision (unpacking wrappedPayload) "linux" archiveOnly).1 = 1 ∧
    (provision (unpacking wrappedPayload) "linux" archiveOnly).2.fs = wrappedExtracted.fs :=
  ⟨rfl, rfl, rfl, rfl, rfl⟩

/-- C5, worked example: a target directory with the two binaries. -/
theorem flatten_flat_noop_witness :
    lookup flatTarget.fs (targetFolder "mac")
      = some (.dir [("ffmpeg", binary), ("ffprobe", binary)]) ∧
    flatten "mac" flatTarget = (.ok (), flatTarget) :=
  ⟨rfl, flatten_flat_noop "mac" flatTarget _ rfl (Or.inr (Or.inl (by decide)))⟩

/-- C6, counterexample. The archive for `linux` holds `ffmpeg`, `ffprobe` and
a `LICENSE` file; provisioning ends with exit status 0 and the target
directory has three entries. -/
theorem success_with_extra_entry :
    (provision (unpacking licensedPayload) "linux" archiveOnly).1 = 0 ∧
    ∃ es, lookup (provision (unpacking licensedPayload) "linux" archiveOnly).2.fs
            (targetFolder "linux") = some (.dir es) ∧
          Dir.names es = ["ffmpeg", "ffprobe", "LICENSE"] :=
  ⟨rfl, ⟨_, rfl, rfl⟩⟩

/-- C6, as the code behaves. For every platform tag and every file system and
archive tool, if provisioning ends with exit status 0 then the target
directory exists and contains an entry named ffmpeg plus suffix and an entry
named ffprobe plus suffix (other entries may be present too), where the
suffix is `.exe` iff the tag is `win` and is empty otherwise. -/
theorem success_has_both_binaries (host : Host) (platform : String) (fs : Dir)
    (h0 : (provision host platform fs).1 = 0) :
    (∃ es, lookup (provision host platform fs).2.fs (targetFolder platform) = some (.dir es) ∧
        (Dir.find es ("ffmpeg" ++ exeExt platform)).isSome = true ∧
        (Dir.find es ("ffprobe" ++ exeExt platform)).isSome = true) ∧
    (exeExt platform = ".exe" ↔ platform = "win") ∧
    (platform ≠ "win" → exeExt platform = "") := by
  obtain ⟨_, ha, hb, _⟩ := provision_zero_provisioned host platform fs h0
  refine ⟨?_, ?_, ?_⟩
  · obtain ⟨es, n, he, hn⟩ := lookup_isSome_two (by rw [← ffmpegPath_eq]; exact ha)
    refine ⟨es, ?_, by simp [hn], ?_⟩
    · rw [targetFolder_eq, lookup_one]; exact he
    · rw [ffprobePath_eq, lookup_two, he] at hb
      exact hb
  · by_cases hw : platform = "win"
    · simp [exeExt, hw]
    · simp only [exeExt, hw, if_false, iff_false]
      decide
  · intro hw
    simp [exeExt, hw]

/-- C6, worked example: an archive for `linux` that carries a licence file
next to the two binaries. -/
theorem success_has_both_binaries_witness :
    (provision (unpacking licensedPayload) "linux" archiveOnly).1 = 0 ∧
    ((∃ es, lookup (provision (unpacking licensedPayload) "linux" archiveOnly).2.fs
              (targetFolder "linux") = some (.dir es) ∧
        (Dir.find es ("ffmpeg" ++ exeExt "linux")).isSome = true ∧
        (Dir.find es ("ffprobe" ++ exeExt "linux")).isSome = true) ∧
     (exeExt "linux" = ".exe" ↔ "linux" = "win") ∧
     ("linux" ≠ "win" → exeExt "linux" = "")) :=
  ⟨rfl, success_has_both_binaries (unpacking licensedPayload) "linux" archiveOnly rfl⟩

/-- C7, worked example: binaries for `mac` placed by hand, no archive. -/
theorem no_archive_goes_to_verify_witness :
    "mac" ≠ "" ∧ lookup handPlaced (zipPath "mac") = none ∧
    (provision (unpacking []) "mac" handPlaced).1 = 0 ∧
    (∀ op ∈ (provision (unpacking []) "mac" handPlaced).2.ops, ∃ q m, op = FsOp.chmod q m) ∧
    blankModes2 (provision (unpacking []) "mac" handPlaced).2.fs = blankModes2 handPlaced :=
  ⟨by decide, rfl, rfl,
    (no_archive_goes_to_verify (unpacking []) "mac" handPlaced (by decide) rfl).2.1,
    (no_archive_goes_to_verify (unpacking []) "mac" handPlaced (by decide) rfl).2.2.1⟩

/-- C8, worked example: only `ffprobe` is present, and `verify` reports the
ffmpeg path and no other. -/
theorem verify_reports_exactly_missing_witness :
    (verify (unpacking []) "linux" onlyProbe).1 ≠ Res.ok () ∧
    (verify (unpacking []) "linux" onlyProbe).1 = Res.exit 1 ∧
    reportedMissing (unpacking []) "linux"
        (printed onlyProbe (verify (unpacking []) "linux" onlyProbe).2)
      = [ffmpegPath "linux"] :=
  ⟨(fun h => by cases h),
   ((verify_reports_exactly_missing (unpacking []) "linux" onlyProbe).2
      (fun h => by cases h)).1,
   ((verify_reports_exactly_missing (unpacking []) "linux" onlyProbe).2
      (fun h => by cases h)).2.2.2.2.2.1.trans rfl⟩

/-- C9. For every platform tag, file system and archive tool: if a
provisioning run ends with exit status 0, a second run for the same tag on
the file system the first run left also ends with exit status 0 and leaves
that file system, so in particular the entries of the target directory,
exactly as the first run left it. -/
theorem rerun_is_stable (host : Host) (platform : String) (fs : Dir)
    (h0 : (provision host platform fs).1 = 0) :
    (provision host platform (provision host platform fs).2.fs).1 = 0 ∧
    (provision host platform (provision host platform fs).2.fs).2.fs
      = (provision host platform fs).2.fs ∧
    lookup (provision host platform (provision host platform fs).2.fs).2.fs
        (targetFolder platform)
      = lookup (provision host platform fs).2.fs (targetFolder platform) := by
  obtain ⟨hp, _⟩ := provision_zero host platform fs h0
  obtain ⟨hz, ha, hb, hv⟩ := provision_zero_provisioned host platform fs h0
  have h2 := provision_no_archive host platform _ hp hz
  rw [verify_found_eq host platform _ (by exact ha) (by exact hb)] at h2
  rw [h2]
  simp only [exitStatus, hv, and_self]

/-- C9, worked example: the archive for `linux` with a licence file is
provisioned twice. -/
theorem rerun_is_stable_witness :
    (provision (unpacking licensedPayload) "linux" archiveOnly).1 = 0 ∧
    ((provision (unpacking licensedPayload) "linux"
        (provision (unpacking licensedPayload) "linux" archiveOnly).2.fs).1 = 0 ∧
     (provision (unpacking licensedPayload) "linux"
        (provision (unpacking licensedPayload) "linux" archiveOnly).2.fs).2.fs
       = (provision (unpacking licensedPayload) "linux" archiveOnly).2.fs ∧
     lookup (provision (unpacking licensedPayload) "linux"
        (provision (unpacking licensedPayload) "linux" archiveOnly).2.fs).2.fs
        (targetFolder "linux")
       = lookup (provision (unpacking licensedPayload) "linux" archiveOnly).2.fs
          (targetFolder "linux")) :=
  ⟨rfl, rerun_is_stable (unpacking licensedPayload) "linux" archiveOnly rfl⟩

end FfmpegSetup

namespace Transcoder

/-! ## Supervisor: the environment of the child -/

theorem getVar_setVar_same (e : Environ) (k v : String) : getVar (setVar e k v) k = some v := by
  induction e with
  | nil => simp [setVar, getVar]
  | cons p rest ih =>
    obtain ⟨k', v'⟩ := p
    by_cases hk : k' = k
    · simp [setVar, getVar, hk]
    · simp [setVar, getVar, hk, ih]

theorem getVar_setVar_other (e : Environ) (k v j : String) (hj : j ≠ k) :
    getVar (setVar e k v) j = getVar e j := by
  have hkj : ¬ k = j := fun h => hj h.symm
  induction e with
  | nil => simp [setVar, getVar, hkj]
  | cons p rest ih =>
    obtain ⟨k', v'⟩ := p
    by_cases hk : k' = k
    · subst hk
      simp [setVar, getVar, hkj]
    · by_cases hk' : k' = j
      · subst hk'
        simp [setVar, getVar, hk]
      · simp [setVar, getVar, hk, hk', ih]

theorem keys_setVar (e : Environ) (k v j : String) (hj : j ∈ (setVar e k v).map Prod.fst) :
    j ∈ e.map Prod.fst ∨ j = k := by
  induction e with
  | nil => simpa [setVar] using hj
  | cons p rest ih =>
    obtain ⟨k', v'⟩ := p
    by_cases hk : k' = k
    · simp only [setVar, hk, if_true, List.map_cons, List.mem_cons] at hj
      rcases hj with hj | hj
      · exact Or.inr hj
      · exact Or.inl (by simp [hj])
    · simp only [setVar, hk, if_false, List.map_cons, List.mem_cons] at hj
      rcases hj with hj | hj
      · exact Or.inl (by simp [hj])
      · rcases ih hj with h | h
        · exact Or.inl (by simp [h])
        · exact Or.inr h

/-- The environment built at lines 31 to 40, as a function of the value
`ffmpegBin` holds after lines 16 to 24. -/
theorem prepareEnv_env (w : World) (s : SupState) :
    (prepareEnv w s).1 =
      if truthy (resolveFfmpeg w s).1 then
        setVar (baseEnv w) "FFMPEG_PATH" ((resolveFfmpeg w s).1.getD "")
      else baseEnv w := by
  simp only [prepareEnv, overrideFfmpeg]
  by_cases ht : truthy (resolveFfmpeg w s).1 = true <;> simp [ht]

theorem getVar_baseEnv_port (w : World) : getVar (baseEnv w) "PORT" = some "3005" := by
  unfold baseEnv
  rw [getVar_setVar_other _ _ _ _ (by decide), getVar_setVar_same]
  rfl

theorem getVar_baseEnv_marker (w : World) :
    getVar (baseEnv w) "ELECTRON_RUN_AS_NODE" = some "1" := by
  unfold baseEnv
  rw [getVar_setVar_same]

theorem getVar_baseEnv_other (w : World) (k : String) (h1 : k ≠ "PORT")
    (h2 : k ≠ "ELECTRON_RUN_AS_NODE") : getVar (baseEnv w) k = getVar w.processEnv k := by
  unfold baseEnv
  rw [getVar_setVar_other _ _ _ _ h2, getVar_setVar_other _ _ _ _ h1]

theorem launch_spawned (h : Host) (w : World) (s : SupState)
    (hp : s.transcoderProc = none) (hx : w.scriptExists = true) (hf : w.spawnFault = none) :
    (startTranscoder h w s).2.spawned
      = s.spawned ++ [childOf h (prepareEnv w (s.print .log "[Transcoder] Starting...")).1] := by
  obtain ⟨_, _, _, v4, _⟩ := sameVars_trans (print_sameVars s .log "[Transcoder] Starting...")
    (prepareEnv_sameVars w _)
  rw [startTranscoder_launch h w s hp hx]
  simp [spawnChild, hf, v4]

/-- C11. For every inherited environment and every result of
`require('ffmpeg-static')`, the environment built for the child has `PORT`
equal to "3005" and `ELECTRON_RUN_AS_NODE` equal to "1" whatever was
inherited; `FFMPEG_PATH` is the resolved path when the resolution gives a
non-empty path, and keeps its inherited value (set or unset) when the
resolution throws, gives `null` or gives the empty string; every other name
has its inherited value, and no name is present that is neither inherited nor
one of these three. It is the environment of the child that a launch
records. -/
theorem child_environment (h : Host) (w : World) (s : SupState) :
    getVar (prepareEnv w s).1 "PORT" = some "3005" ∧
    getVar (prepareEnv w s).1 "ELECTRON_RUN_AS_NODE" = some "1" ∧
    (∀ p, w.ffmpegStatic = .ok (some p) → p ≠ "" →
      getVar (prepareEnv w s).1 "FFMPEG_PATH" = some p) ∧
    (∀ msg, w.ffmpegStatic = .error msg →
      getVar (prepareEnv w s).1 "FFMPEG_PATH" = getVar w.processEnv "FFMPEG_PATH") ∧
    (w.ffmpegStatic = .ok none →
      getVar (prepareEnv w s).1 "FFMPEG_PATH" = getVar w.processEnv "FFMPEG_PATH") ∧
    (w.ffmpegStatic = .ok (some "") →
      getVar (prepareEnv w s).1 "FFMPEG_PATH" = getVar w.processEnv "FFMPEG_PATH") ∧
    (∀ k, k ≠ "PORT" → k ≠ "ELECTRON_RUN_AS_NODE" → k ≠ "FFMPEG_PATH" →
      getVar (prepareEnv w s).1 k = getVar w.processEnv k) ∧
    (∀ k ∈ (prepareEnv w s).1.map Prod.fst,
      k ∈ w.processEnv.map Prod.fst ∨ k = "PORT" ∨ k = "ELECTRON_RUN_AS_NODE"
        ∨ k = "FFMPEG_PATH") ∧
    (s.transcoderProc = none → w.scriptExists = true → w.spawnFault = none →
      ∃ c, (startTranscoder h w s).2.spawned = s.spawned ++ [c] ∧
        c.env = (prepareEnv w s).1) := by
  have hfalsy : truthy (resolveFfmpeg w s).1 = false →
      (prepareEnv w s).1 = baseEnv w := by
    intro ht
    rw [prepareEnv_env, ht]; simp
  refine ⟨?_, ?_, ?_, ?_, ?_, ?_, ?_, ?_, ?_⟩
  · rw [prepareEnv_env]
    split
    · rw [getVar_setVar_other _ _ _ _ (by decide)]; exact getVar_baseEnv_port w
    · exact getVar_baseEnv_port w
  · rw [prepareEnv_env]
    split
    · rw [getVar_setVar_other _ _ _ _ (by decide)]; exact getVar_baseEnv_marker w
    · exact getVar_baseEnv_marker w
  · intro p hw hpne
    have hr : (resolveFfmpeg w s).1 = some p := by simp [resolveFfmpeg, hw]
    rw [prepareEnv_env, hr]
    simp [truthy, hpne, getVar_setVar_same]
  · intro msg hw
    rw [hfalsy (by simp [resolveFfmpeg, hw, truthy])]
    exact getVar_baseEnv_other w _ (by decide) (by decide)
  · intro hw
    rw [hfalsy (by simp [resolveFfmpeg, hw, truthy])]
    exact getVar_baseEnv_other w _ (by decide) (by decide)
  · intro hw
    rw [hfalsy (by simp [resolveFfmpeg, hw, truthy])]
    exact getVar_baseEnv_other w _ (by decide) (by decide)
  · intro k h1 h2 h3
    rw [prepareEnv_env]
    split
    · rw [getVar_setVar_other _ _ _ _ h3]; exact getVar_baseEnv_other w k h1 h2
    · exact getVar_baseEnv_other w k h1 h2
  · intro k hk
    have hbase : ∀ j ∈ (baseEnv w).map Prod.fst,
        j ∈ w.processEnv.map Prod.fst ∨ j = "PORT" ∨ j = "ELECTRON_RUN_AS_NODE" := by
      intro j hj
      unfold baseEnv at hj
      rcases keys_setVar _ _ _ _ hj with hj | hj
      · rcases keys_setVar _ _ _ _ hj with hj | hj
        · exact Or.inl hj
        · exact Or.inr (Or.inl hj)
      · exact Or.inr (Or.inr hj)
    rw [prepareEnv_env] at hk
    split at hk
    · rcases keys_setVar _ _ _ _ hk with hk | hk
      · rcases hbase k hk with h | h | h
        · exact Or.inl h
        · exact Or.inr (Or.inl h)
        · exact Or.inr (Or.inr (Or.inl h))
      · exact Or.inr (Or.inr (Or.inr hk))
    · rcases hbase k hk with h | h | h
      · exact Or.inl h
      · exact Or.inr (Or.inl h)
      · exact Or.inr (Or.inr (Or.inl h))
  · intro hp hx hf
    refine ⟨_, launch_spawned h w s hp hx hf, ?_⟩
    show (prepareEnv w (s.print .log "[Transcoder] Starting...")).1 = (prepareEnv w s).1
    have hv : (resolveFfmpeg w (s.print .log "[Transcoder] Starting...")).1
        = (resolveFfmpeg w s).1 := by
      unfold resolveFfmpeg
      cases w.ffmpegStatic <;> rfl
    rw [prepareEnv_env, prepareEnv_env, hv]

/-- C11, worked example: with `PORT=8080` inherited and a resolved binary the
child gets `PORT=3005`, the marker, the resolved path and the inherited
`PATH`; with a failing resolution an inherited `FFMPEG_PATH` is passed on
unchanged. -/
theorem child_environment_witness :
    getVar (prepareEnv demoWorld SupState.init).1 "PORT" = some "3005" ∧
    getVar (prepareEnv demoWorld SupState.init).1 "ELECTRON_RUN_AS_NODE" = some "1" ∧
    getVar (prepareEnv demoWorld SupState.init).1 "FFMPEG_PATH"
      = some "/app/node_modules/ffmpeg-static/ffmpeg" ∧
    getVar (prepareEnv demoWorld SupState.init).1 "PATH" = some "/usr/bin" ∧
    getVar (prepareEnv bareWorld SupState.init).1 "FFMPEG_PATH"
      = some "/opt/ffmpeg/bin/ffmpeg" ∧
    (∃ c, (startTranscoder demoHost demoWorld SupState.init).2.spawned
        = SupState.init.spawned ++ [c] ∧
      c.env = (prepareEnv demoWorld SupState.init).1) :=
  ⟨(child_environment demoHost demoWorld SupState.init).1,
   (child_environment demoHost demoWorld SupState.init).2.1,
   (child_environment demoHost demoWorld SupState.init).2.2.1 _ rfl (by decide),
   (child_environment demoHost demoWorld SupState.init).2.2.2.2.2.2.1 "PATH"
     (by decide) (by decide) (by decide),
   (child_environment demoHost bareWorld SupState.init).2.2.2.1 _ rfl,
   (child_environment demoHost demoWorld SupState.init).2.2.2.2.2.2.2.2 rfl rfl rfl⟩

end Transcoder

namespace AndroidBridge

/-! ## Android bridge: proofs -/

/-- The update of lines 66 to 72, element by element: the first entry with
the id of the manifest is replaced, and a list without one gets the new entry
at its end. -/
theorem upsert_nil (url : String) (m : Manifest) : upsert [] url m = [⟨url, m⟩] := by
  simp [upsert, findIndex]

theorem upsert_cons (a : Addon) (rest : List Addon) (url : String) (m : Manifest) :
    upsert (a :: rest) url m
      = if a.manifest.id = m.id then ⟨url, m⟩ :: rest else a :: upsert rest url m := by
  by_cases ha : a.manifest.id = m.id
  · simp [upsert, findIndex, ha]
  · by_cases hr : findIndex (fun a => a.manifest.id == m.id) rest ≥ 0
    · have hn : (findIndex (fun a => a.manifest.id == m.id) rest + 1).toNat
          = (findIndex (fun a => a.manifest.id == m.id) rest).toNat + 1 := by omega
      have hp : findIndex (fun a => a.manifest.id == m.id) rest + 1 ≥ 0 := by omega
      simp [upsert, findIndex, ha, hr, hn, hp]
    · simp [upsert, findIndex, ha, hr]

theorem ids_upsert_subset (l : List Addon) (url : String) (m : Manifest) (k : String)
    (hk : k ∈ ids (upsert l url m)) : k ∈ ids l ∨ k = m.id := by
  induction l with
  | nil => simpa [upsert_nil, ids] using hk
  | cons a rest ih =>
    rw [upsert_cons] at hk
    split at hk
    · rename_i ha
      simp only [ids, List.map_cons, List.mem_cons] at hk ⊢
      rcases hk with hk | hk
      · exact Or.inr hk
      · exact Or.inl (Or.inr hk)
    · simp only [ids, List.map_cons, List.mem_cons] at hk ⊢
      rcases hk with hk | hk
      · exact Or.inl (Or.inl hk)
      · rcases ih hk with h | h
        · exact Or.inl (Or.inr h)
        · exact Or.inr h

theorem upsert_nodup (l : List Addon) (url : String) (m : Manifest) (hnd : (ids l).Nodup) :
    (ids (upsert l url m)).Nodup := by
  induction l with
  | nil => simp [upsert_nil, ids]
  | cons a rest ih =>
    simp only [ids, List.map_cons, List.nodup_cons] at hnd
    rw [upsert_cons]
    split
    · rename_i ha
      simp only [ids, List.map_cons, List.nodup_cons]
      exact ⟨ha ▸ hnd.1, hnd.2⟩
    · rename_i ha
      simp only [ids, List.map_cons, List.nodup_cons]
      refine ⟨?_, ih hnd.2⟩
      intro hmem
      rcases ids_upsert_subset rest url m _ hmem with h | h
      · exact hnd.1 h
      · exact ha h

theorem filter_absent (l : List Addon) (k : String) (hk : k ∉ ids l) :
    l.filter (fun a => decide (a.manifest.id = k)) = [] := by
  rw [List.filter_eq_nil_iff]
  intro a ha hd
  exact hk (by simp only [ids, List.mem_map]; exact ⟨a, ha, of_decide_eq_true hd⟩)

theorem upsert_filter_same (l : List Addon) (url : String) (m : Manifest)
    (hnd : (ids l).Nodup) :
    (upsert l url m).filter (fun a => decide (a.manifest.id = m.id)) = [⟨url, m⟩] := by
  induction l with
  | nil => simp [upsert_nil]
  | cons a rest ih =>
    simp only [ids, List.map_cons, List.nodup_cons] at hnd
    rw [upsert_cons]
    split
    · rename_i ha
      have hrest := filter_absent rest m.id (ha ▸ hnd.1)
      simp [List.filter_cons, hrest]
    · rename_i ha
      simp [List.filter_cons, ha, ih hnd.2]

theorem upsert_filter_other (l : List Addon) (url : String) (m : Manifest) :
    (upsert l url m).filter (fun a => decide (a.manifest.id ≠ m.id))
      = l.filter (fun a => decide (a.manifest.id ≠ m.id)) := by
  induction l with
  | nil => simp [upsert_nil]
  | cons a rest ih =>
    rw [upsert_cons]
    split
    · rename_i ha
      simp [List.filter_cons, ha]
    · rename_i ha
      simpa [List.filter_cons, ha] using ih

theorem upsert_present (l : List Addon) (url : String) (m : Manifest)
    (h : ∃ a ∈ l, a.manifest.id = m.id) :
    ∃ i, i < l.length ∧ (l.get? i).map (fun a => a.manifest.id) = some m.id ∧
      upsert l url m = l.set i ⟨url, m⟩ := by
  induction l with
  | nil => simp at h
  | cons a rest ih =>
    rw [upsert_cons]
    by_cases ha : a.manifest.id = m.id
    · exact ⟨0, by simp, by simp [ha], by simp [ha]⟩
    · obtain ⟨b, hb, hbm⟩ := h
      simp only [List.mem_cons] at hb
      rcases hb with hb | hb
      · exact absurd (hb ▸ hbm) ha
      · obtain ⟨i, hi, hget, hset⟩ := ih ⟨b, hb, hbm⟩
        exact ⟨i + 1, by simp [hi], by simpa using hget, by simp [ha, hset]⟩

theorem upsert_fresh (l : List Addon) (url : String) (m : Manifest)
    (h : ∀ a ∈ l, a.manifest.id ≠ m.id) : upsert l url m = l ++ [⟨url, m⟩] := by
  induction l with
  | nil => simp [upsert_nil]
  | cons a rest ih =>
    rw [upsert_cons]
    have ha : a.manifest.id ≠ m.id := h a (by simp)
    simp [ha, ih (fun b hb => h b (by simp [hb]))]

/-- A call that reports success has stored the updated list. -/
theorem addonInstall_stored (w : Remote) (url : String) (s : BridgeState)
    (old : List Addon) (m : Manifest)
    (hs : readAddons s.stored = .ok old) (hm : w.fetched = .ok m)
    (hok : (addonInstall w url s).1.success = true) :
    (addonInstall w url s).2.stored = .addons (upsert old url m) := by
  unfold addonInstall at hok ⊢
  cases hg : w.getFault with
  | some e => simp [installBody, hg, throw, throwThe, MonadExceptOf.throw, bind, Except.bind] at hok
  | none =>
    cases hf : w.setFault with
    | some e =>
      simp [installBody, hg, hf, hs, hm, throw, throwThe, MonadExceptOf.throw, bind, Except.bind,
        pure, Except.pure] at hok
    | none =>
      simp [installBody, hg, hf, hs, hm, bind, Except.bind, pure, Except.pure]

/-- C12. For every stored list of addons whose manifest ids are pairwise
distinct, every url `u` and every fetched manifest `m`: after an
`addonInstall(u)` that reports success the stored list has pairwise distinct
ids and exactly one entry with the id of `m`, the entry with url `u` and
manifest `m`. If an entry with that id was stored, the new entry stands
in its place and the length is unchanged; otherwise the new entry stands at
the end and the length has grown by one. The entries with another id are the
same as before, in the same order. -/
theorem addonInstall_keeps_ids_unique (w : Remote) (url : String) (s : BridgeState)
    (old : List Addon) (m : Manifest)
    (hs : readAddons s.stored = .ok old) (hnd : (ids old).Nodup)
    (hm : w.fetched = .ok m) (hok : (addonInstall w url s).1.success = true) :
    ∃ new, (addonInstall w url s).2.stored = .addons new ∧
      (ids new).Nodup ∧
      new.filter (fun a => decide (a.manifest.id = m.id)) = [⟨url, m⟩] ∧
      ((∃ a ∈ old, a.manifest.id = m.id) →
        new.length = old.length ∧
        ∃ i, i < old.length ∧ (old.get? i).map (fun a => a.manifest.id) = some m.id ∧
          new = old.set i ⟨url, m⟩) ∧
      ((∀ a ∈ old, a.manifest.id ≠ m.id) →
        new = old ++ [⟨url, m⟩] ∧ new.length = old.length + 1) ∧
      new.filter (fun a => decide (a.manifest.id ≠ m.id))
        = old.filter (fun a => decide (a.manifest.id ≠ m.id)) := by
  refine ⟨upsert old url m, addonInstall_stored w url s old m hs hm hok,
    upsert_nodup old url m hnd, upsert_filter_same old url m hnd, ?_, ?_,
    upsert_filter_other old url m⟩
  · intro hex
    obtain ⟨i, hi, hget, hset⟩ := upsert_present old url m hex
    exact ⟨by rw [hset, List.length_set], i, hi, hget, hset⟩
  · intro hall
    have hfresh := upsert_fresh old url m hall
    exact ⟨hfresh, by rw [hfresh]; simp⟩

/-- C12, worked example: with two addons stored, a newer manifest of
`org.cinema` is installed from another url; the call reports success and the
stored list has the new entry in first place, still two entries, with distinct
ids. -/
theorem addonInstall_keeps_ids_unique_witness :
    readAddons twoInstalled.stored = .ok twoAddons ∧ (ids twoAddons).Nodup ∧
    updateWorld.fetched = .ok (cinema "v2") ∧
    (addonInstall updateWorld "https://c.example/manifest.json" twoInstalled).1.success = true ∧
    ∃ new, (addonInstall updateWorld "https://c.example/manifest.json" twoInstalled).2.stored
        = .addons new ∧
      (ids new).Nodup ∧
      new.filter (fun a => decide (a.manifest.id = "org.cinema"))
        = [⟨"https://c.example/manifest.json", cinema "v2"⟩] ∧
      new.length = twoAddons.length :=
  ⟨rfl, by decide, rfl, rfl,
    match addonInstall_keeps_ids_unique updateWorld "https://c.example/manifest.json"
      twoInstalled twoAddons (cinema "v2") rfl (by decide) rfl rfl with
    | ⟨new, h1, h2, h3, h4, _, _⟩ =>
      ⟨new, h1, h2, h3, (h4 ⟨_, List.mem_cons_self _ _, rfl⟩).1⟩⟩

end AndroidBridge
